import Mathlib

/-!
# bls381: curve constants and the point codec

A shallow embedding of `bls381/bls381.go` (the constants set by `init`) and of
`bls381/marshal.go` (`Encoder`, `Decoder`, `isCompressed`), followed by the
properties established about them.

Conventions of the embedding

* a byte is a `Fin 256`; the Go operators `&`, `|`, `<<` on bytes are the
  corresponding operators of `Fin 256`;
* `int64` counters are integers reduced by `wrapInt64` after every addition;
* an `io.Reader` is the finite byte sequence it will deliver followed by the
  error it reports once exhausted, which is all `io.ReadFull` observes;
* an `io.Writer` is an arbitrary function from a sink state and a buffer to the
  new state, the number of bytes accepted and the error;
* the methods of `G1Affine`, `G2Affine`, `fr.Element` and `fp.Element` live in
  other files of the repository: they are parameters (`PointOps`, `ElementOps`)
  and every receiver-mutating method returns the receiver after the call.
-/

namespace Bls381

/-! ## Constants of `bls381.go` -/

/-- Base-field modulus `p` of the header comment (`Fp: p=...`). -/
def pModulus : Nat :=
  4002409555221667393417789825735904156556882819939007885332058136124031650490837864442687629129015664037894272559787

/-- Scalar-field modulus `r` of the header comment (`Fr: r=...`), the value of `fr.Modulus()`. -/
def rModulus : Nat :=
  52435875175126190479447740508185965837690552500527637822603658699938581184513

/-- The literal of `xGen.SetString("15132376222941642752", 10)`. -/
def xGen : Int := 15132376222941642752

/-- The literal assigned to `loopCounter` (`[64]int8`, little endian), eight digits
a row. -/
def loopCounter : List Int :=
  [0, 0, 0, 0, 0, 0, 0, 0] ++ [0, 0, 0, 0, 0, 0, 0, 0] ++
  [1, 0, 0, 0, 0, 0, 0, 0] ++ [0, 0, 0, 0, 0, 0, 0, 0] ++
  [0, 0, 0, 0, 0, 0, 0, 0] ++ [0, 0, 0, 0, 0, 0, 0, 0] ++
  [1, 0, 0, 0, 0, 0, 0, 0] ++ [0, 1, 0, 0, 1, 0, 1, 1]

/-- The sum of `digits[i] * 2^(i + k)` over the digits, least significant first. -/
def digitSum : List Int → Nat → Int
  | [], _ => 0
  | d :: ds, k => d * 2 ^ k + digitSum ds (k + 1)

/-- The literal of `lambdaGLV.SetString("228988810152649578064853576960394133503", 10)`. -/
def lambdaGLV : Nat := 228988810152649578064853576960394133503

/-- The literal of `thirdRootOneG1.SetString(...)`. -/
def thirdRootOneG1 : Nat :=
  4002409555221667392624310435006688643935503118305586438271171395842971157480381377015405980053539358417135540939436

/-- Value of `thirdRootOneG2.Square(&thirdRootOneG1)`: the square in the base field. -/
def thirdRootOneG2 : Nat := thirdRootOneG1 * thirdRootOneG1 % pModulus

/-- The literal of `bCurveCoeff.SetUint64(4)`. -/
def bCurveCoeff : Nat := 4

/-- The literal of `g1Gen.X.SetString(...)`. -/
def g1GenX : Nat :=
  2407661716269791519325591009883849385849641130669941829988413640673772478386903154468379397813974815295049686961384

/-- The literal of `g1Gen.Y.SetString(...)`. -/
def g1GenY : Nat :=
  821462058248938975967615814494474302717441302457255475448080663619194518120412959273482223614332657512049995916067

/-- The literal of `g1Gen.Z.SetString("1")`. -/
def g1GenZ : Nat := 1

/-- The first literal of `g2Gen.X.SetString(...)`, the component `A0`. -/
def g2GenX0 : Nat :=
  3914881020997020027725320596272602335133880006033342744016315347583472833929664105802124952724390025419912690116411

/-- The second literal of `g2Gen.X.SetString(...)`, the component `A1`. -/
def g2GenX1 : Nat :=
  277275454976865553761595788585036366131740173742845697399904006633521909118147462773311856983264184840438626176168

/-- The first literal of `g2Gen.Y.SetString(...)`, the component `A0`. -/
def g2GenY0 : Nat :=
  253800087101532902362860387055050889666401414686580130872654083467859828854605749525591159464755920666929166876282

/-- The second literal of `g2Gen.Y.SetString(...)`, the component `A1`. -/
def g2GenY1 : Nat :=
  1710145663789443622734372402738721070158916073226464929008132596760920130516982819361355832232719175024697380252309

/-! ## Bytes and metadata tags of `marshal.go` -/

/-- A Go `byte`. -/
abbrev Byte := Fin 256

/-- The constant `mMask byte = 0b111 << 5`. -/
def mMask : Byte := 0b111 <<< 5

/-- The constant `mUncompressed byte = 0b000 << 5`. -/
def mUncompressed : Byte := 0b000 <<< 5

/-- The constant `mUncompressedInfinity byte = 0b010 << 5`. -/
def mUncompressedInfinity : Byte := 0b010 <<< 5

/-- The constant `mCompressedSmallest byte = 0b100 << 5`. -/
def mCompressedSmallest : Byte := 0b100 <<< 5

/-- The constant `mCompressedLargest byte = 0b101 << 5`. -/
def mCompressedLargest : Byte := 0b101 <<< 5

/-- The constant `mCompressedInfinity byte = 0b110 << 5`. -/
def mCompressedInfinity : Byte := 0b110 <<< 5

/-- The five defined tags. -/
def definedTags : List Byte :=
  [mUncompressed, mUncompressedInfinity, mCompressedSmallest, mCompressedLargest, mCompressedInfinity]

/-- The function `isCompressed(msb byte) bool`. -/
def isCompressed (msb : Byte) : Bool :=
  let mData := msb &&& mMask
  !((mData == mUncompressed) || (mData == mUncompressedInfinity))

/-- The most significant bit of a byte is set. -/
def msbSet (b : Byte) : Bool := b &&& 0x80 != 0

/-- The complement `^mMask` of the tag mask within a byte. -/
def mMaskCompl : Byte := 255 - mMask

/-- Big-endian encoding of `v` on `k` bytes (the low `8k` bits of `v`), as
`binary.BigEndian` and the `Bytes()` of a field element lay integers out. -/
def beBytes : Nat → Nat → List Byte
  | 0, _ => []
  | k + 1, v => Fin.ofNat (v / 256 ^ k) :: beBytes k v

/-- The integer a big-endian byte string stands for (`binary.BigEndian.Uint32`,
`binary.BigEndian.Uint64`). -/
def beValue : List Byte → Nat
  | [] => 0
  | b :: bs => b.val * 256 ^ bs.length + beValue bs

/-! ## Errors, sources and sinks -/

/-- The error values that can come out of the codec. -/
inductive Error
  | EOF                       -- io.EOF
  | ErrUnexpectedEOF          -- io.ErrUnexpectedEOF
  | source (code : Nat)       -- any other error value of the underlying reader
  | sink (code : Nat)         -- an error value of the underlying writer
  | collab (code : Nat)       -- an error value returned by SetBytes or unsafeComputeY
  | needPointer               -- errors.New("bls381 decoder: unsupported type, need pointer")
  | decodeUnsupported         -- errors.New("bls381 encoder: unsupported type"), end of Decode
  | pointDecompressionFailed  -- errors.New("point decompression failed")
  | encodeUnsupported         -- errors.New("<no value> encoder: unsupported type")
  deriving DecidableEq, Repr

/-- An `io.Reader` as `io.ReadFull` observes it: the bytes it will still deliver
and the error it reports once they are exhausted (`io.EOF` for a byte buffer). -/
structure Reader where
  data : List Byte
  term : Error

/-- The call `io.ReadFull(r, buf[:k])`: the reader afterwards, the bytes read and
the error. Fewer than `k` bytes are read only when the source runs out; its
`io.EOF` becomes `io.ErrUnexpectedEOF` when some bytes were read. -/
def ReadFull (r : Reader) (k : Nat) : Reader × List Byte × Option Error :=
  if k ≤ r.data.length then
    (⟨r.data.drop k, r.term⟩, r.data.take k, none)
  else
    (⟨[], r.term⟩, r.data,
      some (if r.term = Error.EOF ∧ r.data ≠ [] then Error.ErrUnexpectedEOF else r.term))

/-- An `io.Writer`: `Write(p)` maps the sink state and `p` to the new state, the
number of bytes accepted and the error. -/
abbrev Sink (σ : Type) := σ → List Byte → σ × Nat × Option Error

/-- Two's-complement reduction of an integer to the `int64` range. -/
def wrapInt64 (x : Int) : Int := (x + 2 ^ 63) % 2 ^ 64 - 2 ^ 63

/-! ## Collaborators -/

/-- The methods of `G1Affine` / `G2Affine` the codec calls. A method with a pointer
receiver takes the receiver's value before the call and returns it after. -/
structure PointOps (G : Type) where
  zero : G
  Bytes : G → List Byte
  RawBytes : G → List Byte
  SetBytes : G → List Byte → G × Option Error
  unsafeSetCompressedBytes : G → List Byte → G × Bool
  unsafeComputeY : G → G × Option Error

/-- The methods of `fr.Element` / `fp.Element` the codec calls. -/
structure ElementOps (F : Type) where
  Bytes : F → List Byte
  SetBytes : F → List Byte → F

/-- All collaborators of the codec. -/
structure Collab (Fr Fp G1 G2 : Type) where
  fr : ElementOps Fr
  fp : ElementOps Fp
  g1 : PointOps G1
  g2 : PointOps G2

/-- Modelled from the spec: `fr.Limbs`, the scalar field element has 4 words of 8
bytes (255 bits rounded up to bytes is 32). -/
def frLimbs : Nat := 4

/-- Modelled from the spec: `fp.Limbs`, the base field element has 6 words of 8
bytes (381 bits rounded up to bytes is 48). -/
def fpLimbs : Nat := 6

/-- Modelled from the spec: `SizeOfG1AffineCompressed`, one base-field element. -/
def SizeOfG1AffineCompressed : Nat := 48

/-- Modelled from the spec: `SizeOfG1AffineUncompressed`, twice the compressed size. -/
def SizeOfG1AffineUncompressed : Nat := 96

/-- Modelled from the spec: `SizeOfG2AffineCompressed`, two base-field elements. -/
def SizeOfG2AffineCompressed : Nat := 96

/-- Modelled from the spec: `SizeOfG2AffineUncompressed`, twice the compressed size. -/
def SizeOfG2AffineUncompressed : Nat := 192

/-! ## Decoder -/

/-- The type `Decoder`: the reader and the count of read bytes. -/
structure Decoder where
  r : Reader
  n : Int

/-- The function `NewDecoder`. -/
def NewDecoder (r : Reader) : Decoder := ⟨r, 0⟩

/-- The method `BytesRead`. -/
def Decoder.BytesRead (dec : Decoder) : Int := dec.n

/-- The statement pair `read, err = io.ReadFull(dec.r, buf[:k]); dec.n += int64(read)`. -/
def Decoder.readFull (dec : Decoder) (k : Nat) : Decoder × List Byte × Option Error :=
  let res := ReadFull dec.r k
  (⟨res.1, wrapInt64 (dec.n + res.2.1.length)⟩, res.2.1, res.2.2)

/-- The method `readUint64`. -/
def Decoder.readUint64 (dec : Decoder) : Decoder × Nat × Option Error :=
  let res := dec.readFull 8
  match res.2.2 with
  | some e => (res.1, 0, some e)
  | none => (res.1, beValue res.2.1, none)

/-- The method `readUint32`. -/
def Decoder.readUint32 (dec : Decoder) : Decoder × Nat × Option Error :=
  let res := dec.readFull 4
  match res.2.2 with
  | some e => (res.1, 0, some e)
  | none => (res.1, beValue res.2.1, none)

/-- The `case *G1Affine` / `case *G2Affine` of `Decode`, for the sizes of the group. -/
def Decoder.decodeAffine {G : Type} (sizeC sizeU : Nat) (ops : PointOps G) (dec : Decoder)
    (t : G) : Decoder × G × Option Error :=
  let r1 := dec.readFull sizeC
  match r1.2.2 with
  | some e => (r1.1, t, some e)
  | none =>
    if !isCompressed (r1.2.1.headD 0) then
      let r2 := r1.1.readFull (sizeU - sizeC)
      match r2.2.2 with
      | some e => (r2.1, t, some e)
      | none =>
        let s := ops.SetBytes t (r1.2.1 ++ r2.2.1)
        (r2.1, s.1, s.2)
    else
      let s := ops.SetBytes t r1.2.1
      (r1.1, s.1, s.2)

/-- The reading loop `for i := 0; i < len(*t); i++` of the slice cases of `Decode`,
over the elements of `*t` from index `i` on: the decoder, the elements, the
flags `compressed[i:]` written so far and the error the loop returned with. -/
def Decoder.readPoints {G : Type} (sizeC sizeU : Nat) (ops : PointOps G) :
    Decoder → List G → Decoder × List G × List Bool × Option Error
  | dec, [] => (dec, [], [], none)
  | dec, t :: ts =>
    let r1 := dec.readFull sizeC
    match r1.2.2 with
    | some e => (r1.1, t :: ts, [], some e)
    | none =>
      if !isCompressed (r1.2.1.headD 0) then
        let r2 := r1.1.readFull (sizeU - sizeC)
        match r2.2.2 with
        | some e => (r2.1, t :: ts, [], some e)
        | none =>
          let s := ops.SetBytes t (r1.2.1 ++ r2.2.1)
          match s.2 with
          | some e => (r2.1, s.1 :: ts, [], some e)
          | none =>
            let rest := Decoder.readPoints sizeC sizeU ops r2.1 ts
            (rest.1, s.1 :: rest.2.1, false :: rest.2.2.1, rest.2.2.2)
      else
        let s := ops.unsafeSetCompressedBytes t r1.2.1
        let rest := Decoder.readPoints sizeC sizeU ops r1.1 ts
        (rest.1, s.1 :: rest.2.1, (!s.2) :: rest.2.2.1, rest.2.2.2)

/-- Modelled from the spec: `parallel.Execute(len(compressed), work)`, declared outside
the sources, runs `work` over disjoint index ranges that cover every index once,
each task to the end of its range. The `work` of `Decode` calls `unsafeComputeY`
on every element whose flag in `compressed` is set and adds one to `nbErrs`
atomically when it fails; an index touches only its own element, so the outcome
of the concurrent run is that of this pass in index order: the elements
afterwards and `nbErrs`. -/
def computeYAll {G : Type} (ops : PointOps G) : List G → List Bool → List G × Nat
  | t :: ts, c :: cs =>
    let rest := computeYAll ops ts cs
    if c then
      let y := ops.unsafeComputeY t
      (y.1 :: rest.1, if y.2.isSome then rest.2 + 1 else rest.2)
    else
      (t :: rest.1, rest.2)
  | [], _ => ([], 0)
  | t :: ts, [] => (t :: ts, 0)

/-- The `case *[]G1Affine` / `case *[]G2Affine` of `Decode`, for the sizes of the group. -/
def Decoder.decodeSlice {G : Type} (sizeC sizeU : Nat) (ops : PointOps G) (dec : Decoder)
    (t : List G) : Decoder × List G × Option Error :=
  let r0 := dec.readUint32
  match r0.2.2 with
  | some e => (r0.1, t, some e)
  | none =>
    let sliceLen := r0.2.1
    let t1 := if t.length ≠ sliceLen then List.replicate sliceLen ops.zero else t
    let rd := Decoder.readPoints sizeC sizeU ops r0.1 t1
    match rd.2.2.2 with
    | some e => (rd.1, rd.2.1, some e)
    | none =>
      let ys := computeYAll ops rd.2.1 rd.2.2.1
      if ys.2 ≠ 0 then (rd.1, ys.1, some Error.pointDecompressionFailed)
      else (rd.1, ys.1, none)

/-- The argument `v interface{}` of `Decode`: what it is and, for a pointer of a
supported type, the value it points to. -/
inductive Target (Fr Fp G1 G2 : Type)
  | notPointer
  | nilPointer
  | uint64 (t : Nat)
  | frElement (t : Fr)
  | fpElement (t : Fp)
  | g1Affine (t : G1)
  | g2Affine (t : G2)
  | g1Slice (t : List G1)
  | g2Slice (t : List G2)
  | otherPointer

/-- The method `Decode`: the decoder and the target after the call, and the error. -/
def Decoder.Decode {Fr Fp G1 G2 : Type} (c : Collab Fr Fp G1 G2) (dec : Decoder)
    (v : Target Fr Fp G1 G2) : Decoder × Target Fr Fp G1 G2 × Option Error :=
  match v with
  | .notPointer => (dec, .notPointer, some Error.needPointer)
  | .nilPointer => (dec, .nilPointer, some Error.needPointer)
  | .uint64 t =>
    let res := dec.readUint64
    match res.2.2 with
    | some e => (res.1, .uint64 t, some e)
    | none => (res.1, .uint64 res.2.1, none)
  | .frElement t =>
    let res := dec.readFull (frLimbs * 8)
    match res.2.2 with
    | some e => (res.1, .frElement t, some e)
    | none => (res.1, .frElement (c.fr.SetBytes t res.2.1), none)
  | .fpElement t =>
    let res := dec.readFull (fpLimbs * 8)
    match res.2.2 with
    | some e => (res.1, .fpElement t, some e)
    | none => (res.1, .fpElement (c.fp.SetBytes t res.2.1), none)
  | .g1Affine t =>
    let res := dec.decodeAffine SizeOfG1AffineCompressed SizeOfG1AffineUncompressed c.g1 t
    (res.1, .g1Affine res.2.1, res.2.2)
  | .g2Affine t =>
    let res := dec.decodeAffine SizeOfG2AffineCompressed SizeOfG2AffineUncompressed c.g2 t
    (res.1, .g2Affine res.2.1, res.2.2)
  | .g1Slice t =>
    let res := dec.decodeSlice SizeOfG1AffineCompressed SizeOfG1AffineUncompressed c.g1 t
    (res.1, .g1Slice res.2.1, res.2.2)
  | .g2Slice t =>
    let res := dec.decodeSlice SizeOfG2AffineCompressed SizeOfG2AffineUncompressed c.g2 t
    (res.1, .g2Slice res.2.1, res.2.2)
  | .otherPointer => (dec, .otherPointer, some Error.decodeUnsupported)

/-! ## Encoder -/

/-- The type `Encoder`: the sink state, the count of written bytes and the mode. -/
structure Encoder (σ : Type) where
  w : σ
  n : Int
  raw : Bool

/-- The option `RawEncoding()`. -/
def RawEncoding {σ : Type} : Encoder σ → Encoder σ := fun enc => { enc with raw := true }

/-- The function `NewEncoder`: default settings, then every option in turn. -/
def NewEncoder {σ : Type} (w : σ) (options : List (Encoder σ → Encoder σ)) : Encoder σ :=
  options.foldl (fun enc option => option enc) ⟨w, 0, false⟩

/-- The method `BytesWritten`. -/
def Encoder.BytesWritten {σ : Type} (enc : Encoder σ) : Int := enc.n

/-- The call `binary.Write(enc.w, binary.BigEndian, x)` for an integer laid out as
`buf`: one `Write` whose byte count is dropped. -/
def binaryWrite {σ : Type} (W : Sink σ) (w : σ) (buf : List Byte) : σ × Option Error :=
  let res := W w buf
  (res.1, res.2.2)

/-- The statement pair `written, err = enc.w.Write(buf[:]); enc.n += int64(written)`. -/
def Encoder.write {σ : Type} (W : Sink σ) (enc : Encoder σ) (buf : List Byte) :
    Encoder σ × Option Error :=
  let res := W enc.w buf
  ({ enc with w := res.1, n := wrapInt64 (enc.n + res.2.1) }, res.2.2)

/-- The statements of the `case uint64`: `err = binary.Write(...); enc.n += 8`. -/
def Encoder.writeUint64 {σ : Type} (W : Sink σ) (enc : Encoder σ) (t : Nat) :
    Encoder σ × Option Error :=
  let res := binaryWrite W enc.w (beBytes 8 (t % 2 ^ 64))
  ({ enc with w := res.1, n := wrapInt64 (enc.n + 8) }, res.2)

/-- The writing loop `for i := 0; i < len(t); i++` of the slice cases, over the
elements from index `i` on; `bytesOf` is `Bytes` or `RawBytes`. -/
def Encoder.writePoints {σ G : Type} (W : Sink σ) (bytesOf : G → List Byte) :
    Encoder σ → List G → Encoder σ × Option Error
  | enc, [] => (enc, none)
  | enc, t :: ts =>
    let res := enc.write W (bytesOf t)
    match res.2 with
    | some e => (res.1, some e)
    | none => Encoder.writePoints W bytesOf res.1 ts

/-- The slice cases of `encode` and `encodeRaw`: the length as `uint32`, then the loop. -/
def Encoder.writeSlice {σ G : Type} (W : Sink σ) (bytesOf : G → List Byte) (enc : Encoder σ)
    (t : List G) : Encoder σ × Option Error :=
  let res := binaryWrite W enc.w (beBytes 4 (t.length % 2 ^ 32))
  match res.2 with
  | some e => ({ enc with w := res.1 }, some e)
  | none => Encoder.writePoints W bytesOf { enc with w := res.1, n := wrapInt64 (enc.n + 4) } t

/-- The argument `v interface{}` of `Encode`. -/
inductive Value (Fr Fp G1 G2 : Type)
  | uint64 (t : Nat)
  | frElement (t : Fr)
  | fpElement (t : Fp)
  | g1Affine (t : G1)
  | g2Affine (t : G2)
  | g1Slice (t : List G1)
  | g2Slice (t : List G2)
  | other

/-- The method `encode`. -/
def Encoder.encode {σ Fr Fp G1 G2 : Type} (W : Sink σ) (c : Collab Fr Fp G1 G2)
    (enc : Encoder σ) (v : Value Fr Fp G1 G2) : Encoder σ × Option Error :=
  match v with
  | .uint64 t => enc.writeUint64 W t
  | .frElement t => enc.write W (c.fr.Bytes t)
  | .fpElement t => enc.write W (c.fp.Bytes t)
  | .g1Affine t => enc.write W (c.g1.Bytes t)
  | .g2Affine t => enc.write W (c.g2.Bytes t)
  | .g1Slice t => enc.writeSlice W c.g1.Bytes t
  | .g2Slice t => enc.writeSlice W c.g2.Bytes t
  | .other => (enc, some Error.encodeUnsupported)

/-- The method `encodeRaw`. -/
def Encoder.encodeRaw {σ Fr Fp G1 G2 : Type} (W : Sink σ) (c : Collab Fr Fp G1 G2)
    (enc : Encoder σ) (v : Value Fr Fp G1 G2) : Encoder σ × Option Error :=
  match v with
  | .uint64 t => enc.writeUint64 W t
  | .frElement t => enc.write W (c.fr.Bytes t)
  | .fpElement t => enc.write W (c.fp.Bytes t)
  | .g1Affine t => enc.write W (c.g1.RawBytes t)
  | .g2Affine t => enc.write W (c.g2.RawBytes t)
  | .g1Slice t => enc.writeSlice W c.g1.RawBytes t
  | .g2Slice t => enc.writeSlice W c.g2.RawBytes t
  | .other => (enc, some Error.encodeUnsupported)

/-- The method `Encode`. -/
def Encoder.Encode {σ Fr Fp G1 G2 : Type} (W : Sink σ) (c : Collab Fr Fp G1 G2)
    (enc : Encoder σ) (v : Value Fr Fp G1 G2) : Encoder σ × Option Error :=
  if enc.raw then enc.encodeRaw W c v else enc.encode W c v

/-! ## Concrete sinks -/

/-- A sink that accepts every write, like `bytes.Buffer`: the state is the bytes
accepted so far. -/
def bufferSink : Sink (List Byte) := fun s p => (s ++ p, p.length, none)

/-- A sink with room for a fixed number of further bytes: the state is the bytes
accepted so far and the room left; a write that does not fit is cut short and
returns an error. -/
def limitSink : Sink (List Byte × Nat) := fun s p =>
  if p.length ≤ s.2 then ((s.1 ++ p, s.2 - p.length), p.length, none)
  else ((s.1 ++ p.take s.2, 0), s.2, some (Error.sink 0))

/-! ## A concrete collaborator

Used to evaluate the codec on concrete streams. The files that define
`G1Affine` and `G2Affine` are not among the sources; this stand-in follows the
wire format of the spec on a curve reduced to one x-coordinate: its points are
the point at infinity `(0, 0)`, `(gx, gy)` and its opposite `(gx, gyNeg)`. A
coordinate is the natural number its bytes spell big endian (for `G2Affine` the
component `A1` followed by `A0`). -/

/-- An affine point as the Go struct of its two coordinates `X` and `Y`. -/
structure Pt where
  X : Nat
  Y : Nat
  deriving DecidableEq, Repr

/-- The first byte ORed with a tag. -/
def setTag (t : Byte) : List Byte → List Byte
  | [] => []
  | b :: bs => (b ||| t) :: bs

/-- The first byte with the tag bits cleared (`bufX[0] &= ^mMask`). -/
def clearTag : List Byte → List Byte
  | [] => []
  | b :: bs => (b &&& mMaskCompl) :: bs

/-- The error a collaborator returns for coordinates that are not a point of the
group (the spec's `PointNotOnCurve`). -/
def pointNotOnCurve : Error := Error.collab 1

/-- Modelled from the spec: the methods of `G1Affine` / `G2Affine` (declared outside
the sources), for a group whose coordinates take `size` bytes and whose only
finite points are `(gx, gy)` (smallest `y`) and `(gx, gyNeg)` (largest `y`).
Compressed form is the tagged `x`; uncompressed form is `x` then `y`; infinity
is the tag followed by zeros. All three decoding methods dispatch on the tag in
the same way and none of them rejects a tag: an infinity tag gives the point at
infinity whatever the remaining bytes, `mUncompressed` reads `x` and `y` and
checks that they are a point of the group, and every other tag is read as
compressed, where `mCompressedLargest` selects `gyNeg` and any other tag `gy`.
`SetBytes` fails on coordinates that are no point of the group;
`unsafeSetCompressedBytes` stores `x`, keeps the tag in `Y` and reports
infinity; `unsafeComputeY` recovers `y` from the stored tag, or fails when `x`
has no point. -/
def tablePointOps (size gx gy gyNeg : Nat) : PointOps Pt where
  zero := ⟨0, 0⟩
  Bytes := fun P =>
    if P = ⟨0, 0⟩ then setTag mCompressedInfinity (beBytes size 0)
    else setTag (if P.Y = gyNeg then mCompressedLargest else mCompressedSmallest) (beBytes size P.X)
  RawBytes := fun P =>
    if P = ⟨0, 0⟩ then setTag mUncompressedInfinity (beBytes (2 * size) 0)
    else setTag mUncompressed (beBytes size P.X ++ beBytes size P.Y)
  SetBytes := fun old buf =>
    let mData := buf.headD 0 &&& mMask
    if mData = mCompressedInfinity ∨ mData = mUncompressedInfinity then (⟨0, 0⟩, none)
    else if mData = mUncompressed then
      let P : Pt := ⟨beValue (buf.take size), beValue ((buf.drop size).take size)⟩
      if P.X = gx ∧ (P.Y = gy ∨ P.Y = gyNeg) then (P, none) else (P, some pointNotOnCurve)
    else
      let x := beValue (clearTag (buf.take size))
      if x = gx then (⟨gx, if mData = mCompressedLargest then gyNeg else gy⟩, none)
      else (⟨x, old.Y⟩, some pointNotOnCurve)
  unsafeSetCompressedBytes := fun _ buf =>
    let mData := buf.headD 0 &&& mMask
    if mData = mCompressedInfinity then (⟨0, 0⟩, true)
    else (⟨beValue (clearTag (buf.take size)), mData.val⟩, false)
  unsafeComputeY := fun P =>
    if P.X = gx then (⟨gx, if P.Y = mCompressedLargest.val then gyNeg else gy⟩, none)
    else (P, some pointNotOnCurve)

/-- Modelled from the spec: the field-element methods for a field of modulus `m`
whose elements take `size` bytes, big endian. -/
def natElementOps (size m : Nat) : ElementOps Nat where
  Bytes := fun v => beBytes size v
  SetBytes := fun _ buf => beValue buf % m

/-- The `G1Affine` generator `g1GenAff` as a point. -/
def genPt : Pt := ⟨g1GenX, g1GenY⟩

/-- The opposite of the `G1Affine` generator. -/
def negGenPt : Pt := ⟨g1GenX, pModulus - g1GenY⟩

/-- The `G2Affine` generator `g2GenAff` as a point: each coordinate is its component
`A1` followed by its component `A0`, 48 bytes each. -/
def g2GenPt : Pt := ⟨g2GenX1 * 256 ^ 48 + g2GenX0, g2GenY1 * 256 ^ 48 + g2GenY0⟩

/-- The opposite of the `G2Affine` generator: both components of `Y` negated modulo `p`. -/
def negG2GenPt : Pt :=
  ⟨g2GenX1 * 256 ^ 48 + g2GenX0, (pModulus - g2GenY1) * 256 ^ 48 + (pModulus - g2GenY0)⟩

/-- The point at infinity. -/
def infPt : Pt := ⟨0, 0⟩

/-- The concrete collaborators: `G1Affine` knows the generator of `g1Gen` on 48-byte
coordinates, `G2Affine` the generator of `g2Gen` on 96-byte coordinates. -/
def testCollab : Collab Nat Nat Pt Pt where
  fr := natElementOps (frLimbs * 8) rModulus
  fp := natElementOps (fpLimbs * 8) pModulus
  g1 := tablePointOps SizeOfG1AffineCompressed g1GenX g1GenY (pModulus - g1GenY)
  g2 := tablePointOps SizeOfG2AffineCompressed g2GenPt.X g2GenPt.Y negG2GenPt.Y

/-! ## Statements in the codec's terms -/

/-- The byte carries one of the three compressed tags. -/
def hasCompressedTag (b : Byte) : Prop :=
  b &&& mMask = mCompressedSmallest ∨ b &&& mMask = mCompressedLargest ∨
    b &&& mMask = mCompressedInfinity

/-- The byte carries one of the two uncompressed tags. -/
def hasUncompressedTag (b : Byte) : Prop :=
  b &&& mMask = mUncompressed ∨ b &&& mMask = mUncompressedInfinity

instance (b : Byte) : Decidable (hasCompressedTag b) := by
  unfold hasCompressedTag; infer_instance

instance (b : Byte) : Decidable (hasUncompressedTag b) := by
  unfold hasUncompressedTag; infer_instance

/-- The collaborator facts about one point `P` that the single-point round trip
relies on: `Bytes` has the compressed size and a compressed tag, `RawBytes` has
the uncompressed size and an uncompressed tag, and `SetBytes` inverts both
whatever the receiver held. -/
def SingleFacts {G : Type} (sizeC sizeU : Nat) (ops : PointOps G) (P : G) : Prop :=
  (ops.Bytes P).length = sizeC ∧ hasCompressedTag ((ops.Bytes P).headD 0) ∧
  (ops.RawBytes P).length = sizeU ∧ hasUncompressedTag ((ops.RawBytes P).headD 0) ∧
  (∀ old, ops.SetBytes old (ops.Bytes P) = (P, none)) ∧
  (∀ old, ops.SetBytes old (ops.RawBytes P) = (P, none))

/-- The collaborator facts about one point `P` that the round trip of a sequence
relies on: the framing and tags of `Bytes` and `RawBytes`, `SetBytes` inverts
`RawBytes`, and `unsafeSetCompressedBytes` followed, unless it reports infinity,
by `unsafeComputeY` inverts `Bytes`, whatever the receiver held. -/
def BatchFacts {G : Type} (sizeC sizeU : Nat) (ops : PointOps G) (P : G) : Prop :=
  (ops.Bytes P).length = sizeC ∧ hasCompressedTag ((ops.Bytes P).headD 0) ∧
  (ops.RawBytes P).length = sizeU ∧ hasUncompressedTag ((ops.RawBytes P).headD 0) ∧
  (∀ old, ops.SetBytes old (ops.RawBytes P) = (P, none)) ∧
  (∀ old, if (ops.unsafeSetCompressedBytes old (ops.Bytes P)).2 = true
    then (ops.unsafeSetCompressedBytes old (ops.Bytes P)).1 = P
    else ops.unsafeComputeY (ops.unsafeSetCompressedBytes old (ops.Bytes P)).1 = (P, none))

/-- The options of an encoder in raw or in compressed mode. -/
def modeOptions (raw : Bool) : List (Encoder (List Byte) → Encoder (List Byte)) :=
  if raw then [RawEncoding] else []

/-- Encode `v` with a new encoder on an empty buffer, then decode into `target`
with a new decoder reading exactly the bytes written (a source that reports
`term` after them): the result of `Encode` and the result of `Decode`. -/
def encodeThenDecode {Fr Fp G1 G2 : Type} (c : Collab Fr Fp G1 G2) (raw : Bool)
    (v : Value Fr Fp G1 G2) (target : Target Fr Fp G1 G2) (term : Error) :
    (Encoder (List Byte) × Option Error) × (Decoder × Target Fr Fp G1 G2 × Option Error) :=
  let e := (NewEncoder [] (modeOptions raw)).Encode bufferSink c v
  (e, (NewDecoder ⟨e.1.w, term⟩).Decode c target)

/-- The element encoding has the length its first byte announces. -/
def Framed (sizeC sizeU : Nat) (e : List Byte) : Prop :=
  e.length = if isCompressed (e.headD 0) then sizeC else sizeU

instance (sizeC sizeU : Nat) (e : List Byte) : Decidable (Framed sizeC sizeU e) := by
  unfold Framed; infer_instance

/-- `SetBytes` returns no error on the encoding, whatever the receiver holds. -/
def SetBytesAccepts {G : Type} (ops : PointOps G) (e : List Byte) : Prop :=
  ∀ old, (ops.SetBytes old e).2 = none

/-- `SetBytes` returns an error on the encoding, whatever the receiver holds. -/
def SetBytesRejects {G : Type} (ops : PointOps G) (e : List Byte) : Prop :=
  ∀ old, (ops.SetBytes old e).2 ≠ none

/-- Validation of a compressed element fails: `unsafeSetCompressedBytes` does not
report infinity and `unsafeComputeY` then returns an error, whatever the receiver
holds. -/
def ComputeYFails {G : Type} (ops : PointOps G) (e : List Byte) : Prop :=
  ∀ old, (ops.unsafeSetCompressedBytes old e).2 = false ∧
    (ops.unsafeComputeY (ops.unsafeSetCompressedBytes old e).1).2 ≠ none

/-- Validation of a compressed element passes: `unsafeSetCompressedBytes` reports
infinity or `unsafeComputeY` returns no error, whatever the receiver holds. -/
def ComputeYPasses {G : Type} (ops : PointOps G) (e : List Byte) : Prop :=
  ∀ old, (ops.unsafeSetCompressedBytes old e).2 = true ∨
    (ops.unsafeComputeY (ops.unsafeSetCompressedBytes old e).1).2 = none

/-- What the reading loop leaves in `*t` and in `compressed` when it runs to its end
on the element encodings `es`: a compressed element goes through
`unsafeSetCompressedBytes` and is flagged unless it is infinity, an uncompressed
one goes through `SetBytes`. -/
def stagePoints {G : Type} (ops : PointOps G) : List G → List (List Byte) → List G × List Bool
  | t :: ts, e :: es =>
    let rest := stagePoints ops ts es
    if isCompressed (e.headD 0) then
      ((ops.unsafeSetCompressedBytes t e).1 :: rest.1,
        (!(ops.unsafeSetCompressedBytes t e).2) :: rest.2)
    else ((ops.SetBytes t e).1 :: rest.1, false :: rest.2)
  | [], _ => ([], [])
  | _ :: _, [] => ([], [])

/-- The outcome of decoding a sequence from a stream that holds the element
encodings `elems` (after the 4-byte length) followed by `rest`, where `after` is
the decoder after the call of `Decode` on the decoder `dec` and `err` the error it
returned:
* if `SetBytes` accepts every uncompressed element, the whole sequence is
  consumed (the counter advanced by `4` plus the sizes of all elements), the error
  is "point decompression failed" when validation of at least one compressed
  element fails, and there is no error when validation of every compressed
  element passes;
* if `SetBytes` rejects an uncompressed element and accepts the uncompressed ones
  before it, an error is returned and only the stream up to and including that
  element is consumed. -/
def BatchOutcome {G : Type} (sizeU : Nat) (ops : PointOps G) (dec : Decoder)
    (elems : List (List Byte)) (rest : List Byte) (after : Decoder) (err : Option Error) : Prop :=
  ((∀ e ∈ elems, isCompressed (e.headD 0) = false → SetBytesAccepts ops e) →
    after = ⟨⟨rest, dec.r.term⟩,
      wrapInt64 (dec.n + ((4 + (elems.map List.length).sum : Nat) : Int))⟩ ∧
    ((∃ e ∈ elems, isCompressed (e.headD 0) = true ∧ ComputeYFails ops e) →
      err = some Error.pointDecompressionFailed) ∧
    ((∀ e ∈ elems, isCompressed (e.headD 0) = true → ComputeYPasses ops e) → err = none)) ∧
  (∀ pre e post, elems = pre ++ e :: post →
    (∀ e' ∈ pre, isCompressed (e'.headD 0) = false → SetBytesAccepts ops e') →
    isCompressed (e.headD 0) = false → SetBytesRejects ops e →
    after = ⟨⟨post.flatten ++ rest, dec.r.term⟩,
      wrapInt64 (dec.n + ((4 + ((pre.map List.length).sum + sizeU) : Nat) : Int))⟩ ∧
    err ≠ none)

/-- The uncompressed encoding of `(g1GenX, g1GenY + 1)`, which is no point of the curve. -/
def offCurveElement : List Byte :=
  beBytes 48 g1GenX ++ beBytes 48 (g1GenY + 1)

/-- The compressed encoding of the x-coordinate `g1GenX + 1`, for which
`x^3 + 4` is no square modulo `p`. -/
def noRootElement : List Byte :=
  setTag mCompressedSmallest (beBytes 48 (g1GenX + 1))

/-- The x-coordinate of the generator under the undefined tag `0b111`. -/
def undefinedTagElement : List Byte :=
  setTag (0b111 <<< 5) (beBytes 48 g1GenX)

/-- A sequence of three `G1Affine` encodings: the generator uncompressed, an
x-coordinate without a point compressed, the opposite of the generator compressed. -/
def mixedElems : List (List Byte) :=
  [testCollab.g1.RawBytes genPt, noRootElement, testCollab.g1.Bytes negGenPt]

/-- A sequence of two `G1Affine` encodings: coordinates off the curve uncompressed,
then the generator compressed. -/
def rejectedElems : List (List Byte) :=
  [offCurveElement, testCollab.g1.Bytes genPt]

/-- A stream holding the length of `elems` on 4 bytes, then `elems`. -/
def sliceStream (elems : List (List Byte)) : List Byte :=
  beBytes 4 elems.length ++ (elems.flatten ++ [])

/-- Two `G1Affine` encodings in a row: the generator uncompressed, then compressed. -/
def twoPointStream : List Byte :=
  testCollab.g1.RawBytes genPt ++ testCollab.g1.Bytes genPt

/-- A `G2Affine` stream: the generator compressed, then 96 zero bytes. -/
def paddedStream : List Byte :=
  testCollab.g2.Bytes g2GenPt ++ beBytes 96 0

/-- The number of bytes the source delivered between the state `dec` of a decoder and
the later state `after`. -/
def consumed (dec after : Decoder) : Nat := dec.r.data.length - after.r.data.length

/-- The decoder state `after` follows from `dec` by reads that were all counted: its
reader holds a suffix of the data `dec` had and reports the same final error,
and either nothing happened or the counter is the old one plus the number of
bytes consumed, reduced to `int64`. -/
def Tracks (dec after : Decoder) : Prop :=
  after.r.data <:+ dec.r.data ∧ after.r.term = dec.r.term ∧
    (after = dec ∨ after.n = wrapInt64 (dec.n + (consumed dec after : Nat)))

/-- A `G1Affine` sequence stream cut short: the length `2`, the generator compressed,
then only three more bytes. -/
def truncatedStream : List Byte :=
  beBytes 4 2 ++ (testCollab.g1.Bytes genPt ++ [1, 2, 3])

/-! # Properties -/

/-! ## Curve constants -/

/-- C6: the digits of `loopCounter`, weighted by `2^i` for `i = 0..63`, sum to `xGen`
exactly; there are 64 of them and each is `-1`, `0` or `1`. -/
theorem C6_loopCounter_consistent :
    digitSum loopCounter 0 = xGen ∧ xGen = 15132376222941642752 ∧ loopCounter.length = 64 ∧
      ∀ d ∈ loopCounter, d = -1 ∨ d = 0 ∨ d = 1 := by
  decide

/-- C7: `lambdaGLV^2 + lambdaGLV + 1` is `0` modulo the scalar-field modulus `r`, and
`1 < lambdaGLV < r`. -/
theorem C7_glv_eigenvalue_relation :
    (lambdaGLV ^ 2 + lambdaGLV + 1) % rModulus = 0 ∧ 1 < lambdaGLV ∧ lambdaGLV < rModulus := by
  decide

/-- C8: the literal of `thirdRootOneG1` is a reduced base-field element, its cube is
`1` modulo `p` and it is not `1`: a primitive cube root of unity. -/
theorem C8_thirdRootOneG1_primitive :
    thirdRootOneG1 < pModulus ∧ thirdRootOneG1 ^ 3 % pModulus = 1 ∧ thirdRootOneG1 ≠ 1 := by
  decide

/-! ## Metadata tags -/

theorem top_byte_lt (x : Nat) (hx : x < pModulus) : x / 256 ^ 47 < 32 := by
  apply Nat.div_lt_of_lt_mul
  have hp : pModulus < 256 ^ 47 * 32 := by decide
  omega

set_option maxRecDepth 100000 in
theorem tag_bits_disjoint :
    ∀ f : Byte, f.val < 32 → f &&& mMask = 0 ∧
      ∀ t ∈ definedTags, (f ||| t) &&& mMask = t ∧ (f ||| t) &&& mMaskCompl = f := by
  decide

/-- C9: for every `x < p` the first byte of the 48-byte big-endian encoding of `x` has
the three `mMask` bits clear, so ORing any of the five tags into it loses nothing:
masking with `mMask` gives the tag back and masking with `^mMask` gives the first
byte back. -/
theorem C9_tag_bits_never_collide (x : Nat) (hx : x < pModulus) :
    (beBytes (fpLimbs * 8) x).headD 0 &&& mMask = 0 ∧
      ∀ t ∈ definedTags,
        ((beBytes (fpLimbs * 8) x).headD 0 ||| t) &&& mMask = t ∧
        ((beBytes (fpLimbs * 8) x).headD 0 ||| t) &&& mMaskCompl
          = (beBytes (fpLimbs * 8) x).headD 0 := by
  have h : (beBytes (fpLimbs * 8) x).headD 0 = Fin.ofNat (x / 256 ^ 47) := rfl
  rw [h]
  apply tag_bits_disjoint
  have := top_byte_lt x hx
  show (x / 256 ^ 47) % 256 < 32
  omega

/-- C9 at the largest field element `p - 1`. -/
theorem C9_tag_bits_never_collide_witness :
    pModulus - 1 < pModulus ∧
      (beBytes (fpLimbs * 8) (pModulus - 1)).headD 0 &&& mMask = 0 ∧
      ∀ t ∈ definedTags,
        ((beBytes (fpLimbs * 8) (pModulus - 1)).headD 0 ||| t) &&& mMask = t ∧
        ((beBytes (fpLimbs * 8) (pModulus - 1)).headD 0 ||| t) &&& mMaskCompl
          = (beBytes (fpLimbs * 8) (pModulus - 1)).headD 0 :=
  ⟨by decide, C9_tag_bits_never_collide (pModulus - 1) (by decide)⟩

set_option maxRecDepth 100000 in
/-- On the five defined tags `isCompressed` agrees with the most significant bit,
and a byte whose most significant bit is set is always classified compressed. -/
theorem isCompressed_on_defined_tags :
    ∀ b : Byte, (b &&& mMask ∈ definedTags → isCompressed b = msbSet b) ∧
      (msbSet b = true → isCompressed b = true) := by
  decide

/-- C10: at the byte `0x20` (tag bits `0b001`) `isCompressed` returns `true` although
the most significant bit is clear. -/
theorem C10_isCompressed_not_msb :
    isCompressed 0x20 = true ∧ msbSet 0x20 = false ∧
      (0x20 : Byte) &&& mMask ∉ definedTags := by
  decide

/-! ## Counters, reads and writes -/

theorem wrapInt64_wrap_add (a b : Int) : wrapInt64 (wrapInt64 a + b) = wrapInt64 (a + b) := by
  unfold wrapInt64
  omega

theorem wrapInt64_of_small (a : Int) (h0 : 0 ≤ a) (h1 : a < 2 ^ 63) : wrapInt64 a = a := by
  unfold wrapInt64
  omega

theorem readFull_append (dec : Decoder) (bs rest : List Byte) (k : Nat)
    (hd : dec.r.data = bs ++ rest) (hk : bs.length = k) :
    dec.readFull k = (⟨⟨rest, dec.r.term⟩, wrapInt64 (dec.n + k)⟩, bs, none) := by
  subst hk
  simp [Decoder.readFull, ReadFull, hd]

set_option maxRecDepth 100000 in
theorem isCompressed_of_compressedTag (b : Byte) (h : hasCompressedTag b) :
    isCompressed b = true := by
  revert b
  unfold hasCompressedTag
  decide

set_option maxRecDepth 100000 in
theorem isCompressed_of_uncompressedTag (b : Byte) (h : hasUncompressedTag b) :
    isCompressed b = false := by
  revert b
  unfold hasUncompressedTag
  decide

theorem decodeAffine_compressed {G : Type} (sizeC sizeU : Nat) (ops : PointOps G)
    (dec : Decoder) (t : G) (bs rest : List Byte) (hd : dec.r.data = bs ++ rest)
    (hk : bs.length = sizeC) (hc : isCompressed (bs.headD 0) = true) :
    dec.decodeAffine sizeC sizeU ops t
      = (⟨⟨rest, dec.r.term⟩, wrapInt64 (dec.n + sizeC)⟩,
          (ops.SetBytes t bs).1, (ops.SetBytes t bs).2) := by
  simp only [Decoder.decodeAffine, readFull_append dec bs rest sizeC hd hk, hc]
  rfl

theorem decodeAffine_uncompressed {G : Type} (sizeC sizeU : Nat) (ops : PointOps G)
    (dec : Decoder) (t : G) (bs rest : List Byte) (hd : dec.r.data = bs ++ rest)
    (hk : bs.length = sizeU) (hpos : 0 < sizeC) (hle : sizeC ≤ sizeU)
    (hc : isCompressed (bs.headD 0) = false) :
    dec.decodeAffine sizeC sizeU ops t
      = (⟨⟨rest, dec.r.term⟩, wrapInt64 (dec.n + sizeU)⟩,
          (ops.SetBytes t bs).1, (ops.SetBytes t bs).2) := by
  have hsplit : bs.take sizeC ++ bs.drop sizeC = bs := List.take_append_drop sizeC bs
  have h1 : dec.r.data = bs.take sizeC ++ (bs.drop sizeC ++ rest) := by
    rw [← List.append_assoc, hsplit, hd]
  have hl1 : (bs.take sizeC).length = sizeC := by simp [hk, hle]
  have hl2 : (bs.drop sizeC).length = sizeU - sizeC := by simp [hk]
  have hhead : (bs.take sizeC).headD 0 = bs.headD 0 := by
    cases bs with
    | nil => simp
    | cons b bs' =>
      cases sizeC with
      | zero => omega
      | succ k => simp
  have r1 := readFull_append dec (bs.take sizeC) (bs.drop sizeC ++ rest) sizeC h1 hl1
  have r2 := readFull_append ⟨⟨bs.drop sizeC ++ rest, dec.r.term⟩, wrapInt64 (dec.n + sizeC)⟩
    (bs.drop sizeC) rest (sizeU - sizeC) rfl hl2
  have hn : wrapInt64 (wrapInt64 (dec.n + sizeC) + ((sizeU - sizeC : Nat) : Int))
      = wrapInt64 (dec.n + sizeU) := by
    rw [wrapInt64_wrap_add]
    congr 1
    omega
  simp only [Decoder.decodeAffine, r1, hhead, hc, r2, hn, hsplit]
  rfl


theorem roundTrip_affine {G : Type} (sizeC sizeU : Nat) (ops : PointOps G) (P old : G)
    (term : Error) (hpos : 0 < sizeC) (hle : sizeC ≤ sizeU) (h : SingleFacts sizeC sizeU ops P) :
    (Decoder.decodeAffine sizeC sizeU ops (NewDecoder ⟨[] ++ ops.Bytes P, term⟩) old
        = (⟨⟨[], term⟩, wrapInt64 (0 + (ops.Bytes P).length)⟩, P, none)) ∧
    (Decoder.decodeAffine sizeC sizeU ops (NewDecoder ⟨[] ++ ops.RawBytes P, term⟩) old
        = (⟨⟨[], term⟩, wrapInt64 (0 + (ops.RawBytes P).length)⟩, P, none)) := by
  obtain ⟨hl, ht, hrl, hrt, hs, hrs⟩ := h
  constructor
  · rw [decodeAffine_compressed sizeC sizeU ops _ old (ops.Bytes P) [] (by simp [NewDecoder]) hl
      (isCompressed_of_compressedTag _ ht), hs old, hl]
    rfl
  · rw [decodeAffine_uncompressed sizeC sizeU ops _ old (ops.RawBytes P) [] (by simp [NewDecoder])
      hrl hpos hle (isCompressed_of_uncompressedTag _ hrt), hrs old, hrl]
    rfl


theorem encodeThenDecode_g1Affine {Fr Fp G1 G2 : Type} (c : Collab Fr Fp G1 G2) (raw : Bool)
    (term : Error) (P old : G1)
    (h : SingleFacts SizeOfG1AffineCompressed SizeOfG1AffineUncompressed c.g1 P) :
    ∃ w n, encodeThenDecode c raw (.g1Affine P) (.g1Affine old) term
      = ((⟨w, n, raw⟩, none), (⟨⟨[], term⟩, n⟩, .g1Affine P, none)) := by
  have r := roundTrip_affine _ _ c.g1 P old term (by decide) (by decide) h
  cases raw
  · refine ⟨[] ++ c.g1.Bytes P, wrapInt64 (0 + (c.g1.Bytes P).length), ?_⟩
    have e : (NewEncoder ([] : List Byte) (modeOptions false)).Encode bufferSink c (.g1Affine P)
        = (⟨[] ++ c.g1.Bytes P, wrapInt64 (0 + (c.g1.Bytes P).length), false⟩, none) := rfl
    unfold encodeThenDecode
    rw [e]
    show (_, (Decoder.decodeAffine _ _ c.g1 _ old).1, Target.g1Affine _, _) = _
    rw [r.1]
  · refine ⟨[] ++ c.g1.RawBytes P, wrapInt64 (0 + (c.g1.RawBytes P).length), ?_⟩
    have e : (NewEncoder ([] : List Byte) (modeOptions true)).Encode bufferSink c (.g1Affine P)
        = (⟨[] ++ c.g1.RawBytes P, wrapInt64 (0 + (c.g1.RawBytes P).length), true⟩, none) := rfl
    unfold encodeThenDecode
    rw [e]
    show (_, (Decoder.decodeAffine _ _ c.g1 _ old).1, Target.g1Affine _, _) = _
    rw [r.2]

theorem encodeThenDecode_g2Affine {Fr Fp G1 G2 : Type} (c : Collab Fr Fp G1 G2) (raw : Bool)
    (term : Error) (P old : G2)
    (h : SingleFacts SizeOfG2AffineCompressed SizeOfG2AffineUncompressed c.g2 P) :
    ∃ w n, encodeThenDecode c raw (.g2Affine P) (.g2Affine old) term
      = ((⟨w, n, raw⟩, none), (⟨⟨[], term⟩, n⟩, .g2Affine P, none)) := by
  have r := roundTrip_affine _ _ c.g2 P old term (by decide) (by decide) h
  cases raw
  · refine ⟨[] ++ c.g2.Bytes P, wrapInt64 (0 + (c.g2.Bytes P).length), ?_⟩
    have e : (NewEncoder ([] : List Byte) (modeOptions false)).Encode bufferSink c (.g2Affine P)
        = (⟨[] ++ c.g2.Bytes P, wrapInt64 (0 + (c.g2.Bytes P).length), false⟩, none) := rfl
    unfold encodeThenDecode
    rw [e]
    show (_, (Decoder.decodeAffine _ _ c.g2 _ old).1, Target.g2Affine _, _) = _
    rw [r.1]
  · refine ⟨[] ++ c.g2.RawBytes P, wrapInt64 (0 + (c.g2.RawBytes P).length), ?_⟩
    have e : (NewEncoder ([] : List Byte) (modeOptions true)).Encode bufferSink c (.g2Affine P)
        = (⟨[] ++ c.g2.RawBytes P, wrapInt64 (0 + (c.g2.RawBytes P).length), true⟩, none) := rfl
    unfold encodeThenDecode
    rw [e]
    show (_, (Decoder.decodeAffine _ _ c.g2 _ old).1, Target.g2Affine _, _) = _
    rw [r.2]


/-- C1: under the collaborator facts about `P` (`Bytes` and `RawBytes` have the
compressed and uncompressed size and tag, `SetBytes` inverts both), for `G1Affine`
and for `G2Affine`, in compressed and in raw mode: `Encode(&P)` on a new encoder
returns no error, and `Decode` on exactly the bytes written returns no error,
leaves `P` in the target whatever it held, and `BytesRead()` equals
`BytesWritten()`. -/
theorem C1_single_point_round_trip {Fr Fp G1 G2 : Type} (c : Collab Fr Fp G1 G2) (raw : Bool)
    (term : Error) (P1 old1 : G1) (P2 old2 : G2)
    (h1 : SingleFacts SizeOfG1AffineCompressed SizeOfG1AffineUncompressed c.g1 P1)
    (h2 : SingleFacts SizeOfG2AffineCompressed SizeOfG2AffineUncompressed c.g2 P2) :
    ((encodeThenDecode c raw (.g1Affine P1) (.g1Affine old1) term).1.2 = none ∧
      (encodeThenDecode c raw (.g1Affine P1) (.g1Affine old1) term).2.2.2 = none ∧
      (encodeThenDecode c raw (.g1Affine P1) (.g1Affine old1) term).2.2.1 = .g1Affine P1 ∧
      (encodeThenDecode c raw (.g1Affine P1) (.g1Affine old1) term).2.1.BytesRead
        = (encodeThenDecode c raw (.g1Affine P1) (.g1Affine old1) term).1.1.BytesWritten) ∧
    ((encodeThenDecode c raw (.g2Affine P2) (.g2Affine old2) term).1.2 = none ∧
      (encodeThenDecode c raw (.g2Affine P2) (.g2Affine old2) term).2.2.2 = none ∧
      (encodeThenDecode c raw (.g2Affine P2) (.g2Affine old2) term).2.2.1 = .g2Affine P2 ∧
      (encodeThenDecode c raw (.g2Affine P2) (.g2Affine old2) term).2.1.BytesRead
        = (encodeThenDecode c raw (.g2Affine P2) (.g2Affine old2) term).1.1.BytesWritten) := by
  obtain ⟨w1, n1, e1⟩ := encodeThenDecode_g1Affine c raw term P1 old1 h1
  obtain ⟨w2, n2, e2⟩ := encodeThenDecode_g2Affine c raw term P2 old2 h2
  rw [e1, e2]
  exact ⟨⟨rfl, rfl, rfl, rfl⟩, ⟨rfl, rfl, rfl, rfl⟩⟩

set_option maxRecDepth 100000 in
theorem testCollab_g1_gen :
    SingleFacts SizeOfG1AffineCompressed SizeOfG1AffineUncompressed testCollab.g1 genPt :=
  ⟨by decide, by decide, by decide, by decide, fun _ => by rfl, fun _ => by rfl⟩

set_option maxRecDepth 100000 in
theorem testCollab_g2_neg :
    SingleFacts SizeOfG2AffineCompressed SizeOfG2AffineUncompressed testCollab.g2 negG2GenPt :=
  ⟨by decide, by decide, by decide, by decide, fun _ => by rfl, fun _ => by rfl⟩

/-- C1 at the generator of `g1Gen` for `G1Affine` and the opposite of the generator of
`g2Gen` for `G2Affine`, in
raw mode, decoding into targets that held other points. -/
theorem C1_single_point_round_trip_witness :
    (encodeThenDecode testCollab true (.g1Affine genPt) (.g1Affine infPt) Error.EOF).2.2.1
        = .g1Affine genPt ∧
      (encodeThenDecode testCollab true (.g2Affine negG2GenPt) (.g2Affine g2GenPt)
        Error.EOF).2.2.1 = .g2Affine negG2GenPt ∧
      (encodeThenDecode testCollab true (.g1Affine genPt) (.g1Affine infPt) Error.EOF).2.1.BytesRead
        = 96 :=
  have h := C1_single_point_round_trip testCollab true Error.EOF genPt infPt negG2GenPt g2GenPt
    testCollab_g1_gen testCollab_g2_neg
  ⟨h.1.2.2.1, h.2.2.2.1, by rfl⟩

/-! ## Point sequences -/

theorem beBytes_length (k v : Nat) : (beBytes k v).length = k := by
  induction k with
  | zero => rfl
  | succ k ih => simp [beBytes, ih]

theorem beValue_beBytes (k v : Nat) : beValue (beBytes k v) = v % 256 ^ k := by
  induction k with
  | zero => simp [beBytes, beValue, Nat.mod_one]
  | succ k ih =>
    simp only [beBytes, beValue, beBytes_length, ih]
    show (v / 256 ^ k) % 256 * 256 ^ k + v % 256 ^ k = v % 256 ^ (k + 1)
    rw [Nat.pow_succ, Nat.mod_mul]
    ring

theorem readUint32_append (dec : Decoder) (v : Nat) (rest : List Byte) (hv : v < 2 ^ 32)
    (hd : dec.r.data = beBytes 4 v ++ rest) :
    dec.readUint32 = (⟨⟨rest, dec.r.term⟩, wrapInt64 (dec.n + 4)⟩, v, none) := by
  have h := readFull_append dec (beBytes 4 v) rest 4 hd (beBytes_length 4 v)
  have hv' : v % 256 ^ 4 = v := Nat.mod_eq_of_lt (by omega)
  simp only [Decoder.readUint32, h, beValue_beBytes, hv']
  rfl

theorem wrapInt64_idem (a : Int) : wrapInt64 (wrapInt64 a) = wrapInt64 a := by
  unfold wrapInt64
  omega

theorem readFull_two (dec : Decoder) (e rest : List Byte) (sizeC sizeU : Nat)
    (hd : dec.r.data = e ++ rest) (hk : e.length = sizeU) (hle : sizeC ≤ sizeU) :
    dec.readFull sizeC
        = (⟨⟨e.drop sizeC ++ rest, dec.r.term⟩, wrapInt64 (dec.n + sizeC)⟩, e.take sizeC, none) ∧
      Decoder.readFull ⟨⟨e.drop sizeC ++ rest, dec.r.term⟩, wrapInt64 (dec.n + sizeC)⟩
          (sizeU - sizeC)
        = (⟨⟨rest, dec.r.term⟩, wrapInt64 (dec.n + sizeU)⟩, e.drop sizeC, none) := by
  have hsplit : e.take sizeC ++ e.drop sizeC = e := List.take_append_drop sizeC e
  have h1 : dec.r.data = e.take sizeC ++ (e.drop sizeC ++ rest) := by
    rw [← List.append_assoc, hsplit, hd]
  have hl1 : (e.take sizeC).length = sizeC := by simp [hk, hle]
  have hl2 : (e.drop sizeC).length = sizeU - sizeC := by simp [hk]
  have hn : wrapInt64 (wrapInt64 (dec.n + sizeC) + ((sizeU - sizeC : Nat) : Int))
      = wrapInt64 (dec.n + sizeU) := by
    rw [wrapInt64_wrap_add]
    congr 1
    omega
  refine ⟨readFull_append dec _ _ sizeC h1 hl1, ?_⟩
  rw [readFull_append ⟨⟨e.drop sizeC ++ rest, dec.r.term⟩, wrapInt64 (dec.n + sizeC)⟩
    (e.drop sizeC) rest (sizeU - sizeC) rfl hl2, hn]

theorem headD_take (e : List Byte) (k : Nat) (hk : 0 < k) : (e.take k).headD 0 = e.headD 0 := by
  cases e with
  | nil => simp
  | cons b bs =>
    cases k with
    | zero => omega
    | succ k => simp

theorem readPoints_framed {G : Type} (sizeC sizeU : Nat) (ops : PointOps G) (hpos : 0 < sizeC)
    (hle : sizeC ≤ sizeU) (elems : List (List Byte)) :
    ∀ (dst : List G) (dec : Decoder) (rest : List Byte), dst.length = elems.length →
      wrapInt64 dec.n = dec.n →
      dec.r.data = elems.flatten ++ rest → (∀ e ∈ elems, Framed sizeC sizeU e) →
      (∀ e ∈ elems, isCompressed (e.headD 0) = false → SetBytesAccepts ops e) →
      Decoder.readPoints sizeC sizeU ops dec dst
        = (⟨⟨rest, dec.r.term⟩, wrapInt64 (dec.n + ((elems.map List.length).sum : Nat))⟩,
            (stagePoints ops dst elems).1, (stagePoints ops dst elems).2, none) := by
  induction elems with
  | nil =>
    intro dst dec rest hl hn hd _ _
    cases dst with
    | nil =>
      simp only [List.flatten_nil, List.nil_append] at hd
      simp only [Decoder.readPoints, stagePoints, List.map_nil, List.sum_nil, Nat.cast_zero,
        add_zero, hn, ← hd]
    | cons t ts => simp at hl
  | cons e es ih =>
    intro dst dec rest hl hn hd hf ha
    cases dst with
    | nil => simp at hl
    | cons t ts =>
      have hl' : ts.length = es.length := by simpa using hl
      have hfe : Framed sizeC sizeU e := hf e (List.mem_cons_self _ _)
      have hd' : dec.r.data = e ++ (es.flatten ++ rest) := by
        rw [hd, List.flatten_cons, List.append_assoc]
      have hf' : ∀ e' ∈ es, Framed sizeC sizeU e' := fun e' he' => hf e' (List.mem_cons_of_mem _ he')
      have ha' : ∀ e' ∈ es, isCompressed (e'.headD 0) = false → SetBytesAccepts ops e' :=
        fun e' he' => ha e' (List.mem_cons_of_mem _ he')
      cases hc : isCompressed (e.headD 0) with
      | true =>
        have hk : e.length = sizeC := by
          simp only [Framed, hc, if_true] at hfe
          exact hfe
        have r1 := readFull_append dec e (es.flatten ++ rest) sizeC hd' hk
        have hrec := ih ts ⟨⟨es.flatten ++ rest, dec.r.term⟩, wrapInt64 (dec.n + sizeC)⟩ rest hl'
          (wrapInt64_idem _) rfl hf' ha'
        have hn' : wrapInt64 (wrapInt64 (dec.n + sizeC) + ((es.map List.length).sum : Nat))
            = wrapInt64 (dec.n + (((e :: es).map List.length).sum : Nat)) := by
          rw [wrapInt64_wrap_add]
          congr 1
          simp only [List.map_cons, List.sum_cons, hk]
          push_cast
          ring
        simp only [Decoder.readPoints, r1, hc, hrec, stagePoints, hn']
        rfl
      | false =>
        have hk : e.length = sizeU := by
          simp only [Framed, hc, Bool.false_eq_true, if_false] at hfe
          exact hfe
        obtain ⟨r1, r2⟩ := readFull_two dec e (es.flatten ++ rest) sizeC sizeU hd' hk hle
        have hacc := ha e (List.mem_cons_self _ _) hc t
        have hrec := ih ts ⟨⟨es.flatten ++ rest, dec.r.term⟩, wrapInt64 (dec.n + sizeU)⟩ rest hl'
          (wrapInt64_idem _) rfl hf' ha'
        have hn' : wrapInt64 (wrapInt64 (dec.n + sizeU) + ((es.map List.length).sum : Nat))
            = wrapInt64 (dec.n + (((e :: es).map List.length).sum : Nat)) := by
          rw [wrapInt64_wrap_add]
          congr 1
          simp only [List.map_cons, List.sum_cons, hk]
          push_cast
          ring
        simp only [Decoder.readPoints, r1, headD_take e sizeC hpos, hc, r2,
          List.take_append_drop, hacc, hrec, stagePoints, hn']
        rfl


theorem readPoints_rejected {G : Type} (sizeC sizeU : Nat) (ops : PointOps G) (hpos : 0 < sizeC)
    (hle : sizeC ≤ sizeU) (e : List Byte) (post : List (List Byte)) (pre : List (List Byte)) :
    ∀ (dst : List G) (dec : Decoder) (rest : List Byte),
      dst.length = (pre ++ e :: post).length →
      dec.r.data = (pre ++ e :: post).flatten ++ rest →
      (∀ e' ∈ pre, Framed sizeC sizeU e') →
      (∀ e' ∈ pre, isCompressed (e'.headD 0) = false → SetBytesAccepts ops e') →
      e.length = sizeU → isCompressed (e.headD 0) = false → SetBytesRejects ops e →
      (Decoder.readPoints sizeC sizeU ops dec dst).1
          = ⟨⟨post.flatten ++ rest, dec.r.term⟩,
              wrapInt64 (dec.n + (((pre.map List.length).sum + sizeU : Nat) : Int))⟩ ∧
        (Decoder.readPoints sizeC sizeU ops dec dst).2.2.2 ≠ none := by
  induction pre with
  | nil =>
    intro dst dec rest hl hd _ _ hk hc hrej
    cases dst with
    | nil => simp at hl
    | cons t ts =>
      have hd' : dec.r.data = e ++ (post.flatten ++ rest) := by
        rw [hd, List.nil_append, List.flatten_cons, List.append_assoc]
      obtain ⟨r1, r2⟩ := readFull_two dec e (post.flatten ++ rest) sizeC sizeU hd' hk hle
      have hr := hrej t
      cases hs : (ops.SetBytes t e).2 with
      | none => exact absurd hs hr
      | some err =>
        simp only [Decoder.readPoints, r1, headD_take e sizeC hpos, hc, r2,
          List.take_append_drop, hs, List.map_nil, List.sum_nil, Nat.zero_add]
        exact ⟨rfl, by simp⟩
  | cons p ps ih =>
    intro dst dec rest hl hd hf ha hk hc hrej
    cases dst with
    | nil => simp at hl
    | cons t ts =>
      have hl' : ts.length = (ps ++ e :: post).length := by simpa using hl
      have hfp : Framed sizeC sizeU p := hf p (List.mem_cons_self _ _)
      have hd' : dec.r.data = p ++ ((ps ++ e :: post).flatten ++ rest) := by
        rw [hd, List.cons_append, List.flatten_cons, List.append_assoc]
      have hf' : ∀ e' ∈ ps, Framed sizeC sizeU e' := fun e' he' => hf e' (List.mem_cons_of_mem _ he')
      have ha' : ∀ e' ∈ ps, isCompressed (e'.headD 0) = false → SetBytesAccepts ops e' :=
        fun e' he' => ha e' (List.mem_cons_of_mem _ he')
      cases hcp : isCompressed (p.headD 0) with
      | true =>
        have hkp : p.length = sizeC := by
          simp only [Framed, hcp, if_true] at hfp
          exact hfp
        have r1 := readFull_append dec p ((ps ++ e :: post).flatten ++ rest) sizeC hd' hkp
        have hrec := ih ts ⟨⟨(ps ++ e :: post).flatten ++ rest, dec.r.term⟩,
          wrapInt64 (dec.n + sizeC)⟩ rest hl' rfl hf' ha' hk hc hrej
        have hn' : wrapInt64 (wrapInt64 (dec.n + sizeC)
              + (((ps.map List.length).sum + sizeU : Nat) : Int))
            = wrapInt64 (dec.n + ((((p :: ps).map List.length).sum + sizeU : Nat) : Int)) := by
          rw [wrapInt64_wrap_add]
          congr 1
          simp only [List.map_cons, List.sum_cons, hkp]
          push_cast
          ring
        simp only [Decoder.readPoints, List.cons_append, r1, hcp]
        rw [← hn']
        exact hrec
      | false =>
        have hkp : p.length = sizeU := by
          simp only [Framed, hcp, Bool.false_eq_true, if_false] at hfp
          exact hfp
        obtain ⟨r1, r2⟩ := readFull_two dec p ((ps ++ e :: post).flatten ++ rest) sizeC sizeU
          hd' hkp hle
        have hacc := ha p (List.mem_cons_self _ _) hcp t
        have hrec := ih ts ⟨⟨(ps ++ e :: post).flatten ++ rest, dec.r.term⟩,
          wrapInt64 (dec.n + sizeU)⟩ rest hl' rfl hf' ha' hk hc hrej
        have hn' : wrapInt64 (wrapInt64 (dec.n + sizeU)
              + (((ps.map List.length).sum + sizeU : Nat) : Int))
            = wrapInt64 (dec.n + ((((p :: ps).map List.length).sum + sizeU : Nat) : Int)) := by
          rw [wrapInt64_wrap_add]
          congr 1
          simp only [List.map_cons, List.sum_cons, hkp]
          push_cast
          ring
        simp only [Decoder.readPoints, List.cons_append, r1, headD_take p sizeC hpos, hcp, r2,
          List.take_append_drop, hacc]
        rw [← hn']
        exact hrec

theorem stagePoints_compressed {G : Type} (ops : PointOps G) (t : G) (ts : List G)
    (e : List Byte) (es : List (List Byte)) (hc : isCompressed (e.headD 0) = true) :
    stagePoints ops (t :: ts) (e :: es)
      = ((ops.unsafeSetCompressedBytes t e).1 :: (stagePoints ops ts es).1,
          (!(ops.unsafeSetCompressedBytes t e).2) :: (stagePoints ops ts es).2) := by
  simp only [stagePoints, hc, if_true]

theorem stagePoints_uncompressed {G : Type} (ops : PointOps G) (t : G) (ts : List G)
    (e : List Byte) (es : List (List Byte)) (hc : isCompressed (e.headD 0) = false) :
    stagePoints ops (t :: ts) (e :: es)
      = ((ops.SetBytes t e).1 :: (stagePoints ops ts es).1, false :: (stagePoints ops ts es).2) := by
  simp only [stagePoints, hc, Bool.false_eq_true, if_false]

theorem computeYAll_false {G : Type} (ops : PointOps G) (t : G) (ts : List G) (cs : List Bool) :
    computeYAll ops (t :: ts) (false :: cs)
      = (t :: (computeYAll ops ts cs).1, (computeYAll ops ts cs).2) := by
  simp only [computeYAll, Bool.false_eq_true, if_false]

theorem computeYAll_true {G : Type} (ops : PointOps G) (t : G) (ts : List G) (cs : List Bool) :
    computeYAll ops (t :: ts) (true :: cs)
      = ((ops.unsafeComputeY t).1 :: (computeYAll ops ts cs).1,
          if (ops.unsafeComputeY t).2.isSome then (computeYAll ops ts cs).2 + 1
          else (computeYAll ops ts cs).2) := by
  simp only [computeYAll, if_true]

theorem nbErrs_ne_zero {G : Type} (ops : PointOps G) (elems : List (List Byte)) :
    ∀ dst : List G, dst.length = elems.length →
      (∃ e ∈ elems, isCompressed (e.headD 0) = true ∧ ComputeYFails ops e) →
      (computeYAll ops (stagePoints ops dst elems).1 (stagePoints ops dst elems).2).2 ≠ 0 := by
  induction elems with
  | nil =>
    intro dst _ h
    obtain ⟨e, he, _⟩ := h
    simp at he
  | cons e es ih =>
    intro dst hl h
    cases dst with
    | nil => simp at hl
    | cons t ts =>
      have hl' : ts.length = es.length := by simpa using hl
      obtain ⟨x, hx, hxc, hxf⟩ := h
      rcases List.mem_cons.mp hx with hxe | hxes
      · subst hxe
        obtain ⟨h1, h2⟩ := hxf t
        have h3 : (ops.unsafeComputeY (ops.unsafeSetCompressedBytes t x).1).2.isSome = true := by
          cases h4 : (ops.unsafeComputeY (ops.unsafeSetCompressedBytes t x).1).2 with
          | none => exact absurd h4 h2
          | some _ => rfl
        rw [stagePoints_compressed ops t ts x es hxc, h1]
        show (computeYAll ops (_ :: _) (true :: _)).2 ≠ 0
        rw [computeYAll_true, h3]
        simp
      · have hrec := ih ts hl' ⟨x, hxes, hxc, hxf⟩
        cases hc : isCompressed (e.headD 0) with
        | false =>
          rw [stagePoints_uncompressed ops t ts e es hc, computeYAll_false]
          exact hrec
        | true =>
          rw [stagePoints_compressed ops t ts e es hc]
          cases (ops.unsafeSetCompressedBytes t e).2 with
          | true =>
            show (computeYAll ops (_ :: _) (false :: _)).2 ≠ 0
            rw [computeYAll_false]
            exact hrec
          | false =>
            show (computeYAll ops (_ :: _) (true :: _)).2 ≠ 0
            rw [computeYAll_true]
            split
            · simp
            · exact hrec

theorem nbErrs_eq_zero {G : Type} (ops : PointOps G) (elems : List (List Byte)) :
    ∀ dst : List G, dst.length = elems.length →
      (∀ e ∈ elems, isCompressed (e.headD 0) = true → ComputeYPasses ops e) →
      (computeYAll ops (stagePoints ops dst elems).1 (stagePoints ops dst elems).2).2 = 0 := by
  induction elems with
  | nil =>
    intro dst hl _
    cases dst with
    | nil => simp [stagePoints, computeYAll]
    | cons t ts => simp at hl
  | cons e es ih =>
    intro dst hl h
    cases dst with
    | nil => simp at hl
    | cons t ts =>
      have hl' : ts.length = es.length := by simpa using hl
      have hrec := ih ts hl' (fun e' he' => h e' (List.mem_cons_of_mem _ he'))
      cases hc : isCompressed (e.headD 0) with
      | false =>
        rw [stagePoints_uncompressed ops t ts e es hc, computeYAll_false]
        exact hrec
      | true =>
        rw [stagePoints_compressed ops t ts e es hc]
        have hp := h e (List.mem_cons_self _ _) hc t
        cases hinf : (ops.unsafeSetCompressedBytes t e).2 with
        | true =>
          show (computeYAll ops (_ :: _) (false :: _)).2 = 0
          rw [computeYAll_false]
          exact hrec
        | false =>
          show (computeYAll ops (_ :: _) (true :: _)).2 = 0
          rw [hinf] at hp
          have hy : (ops.unsafeComputeY (ops.unsafeSetCompressedBytes t e).1).2 = none := by
            rcases hp with hp | hp
            · exact absurd hp (by simp)
            · exact hp
          rw [computeYAll_true, hy]
          exact hrec


theorem sliceFor_length {G : Type} (z : G) (dst : List G) (n : Nat) :
    (if dst.length ≠ n then List.replicate n z else dst).length = n := by
  split
  · simp
  · omega

theorem decodeSlice_framed {G : Type} (sizeC sizeU : Nat) (ops : PointOps G) (hpos : 0 < sizeC)
    (hle : sizeC ≤ sizeU) (dec : Decoder) (dst : List G) (elems : List (List Byte))
    (rest : List Byte) (hlen : elems.length < 2 ^ 32)
    (hd : dec.r.data = beBytes 4 elems.length ++ (elems.flatten ++ rest))
    (hf : ∀ e ∈ elems, Framed sizeC sizeU e)
    (ha : ∀ e ∈ elems, isCompressed (e.headD 0) = false → SetBytesAccepts ops e) :
    dec.decodeSlice sizeC sizeU ops dst
      = (⟨⟨rest, dec.r.term⟩, wrapInt64 (dec.n + ((4 + (elems.map List.length).sum : Nat) : Int))⟩,
          (computeYAll ops
            (stagePoints ops (if dst.length ≠ elems.length
              then List.replicate elems.length ops.zero else dst) elems).1
            (stagePoints ops (if dst.length ≠ elems.length
              then List.replicate elems.length ops.zero else dst) elems).2).1,
          if (computeYAll ops
            (stagePoints ops (if dst.length ≠ elems.length
              then List.replicate elems.length ops.zero else dst) elems).1
            (stagePoints ops (if dst.length ≠ elems.length
              then List.replicate elems.length ops.zero else dst) elems).2).2 ≠ 0
          then some Error.pointDecompressionFailed else none) := by
  have r0 := readUint32_append dec elems.length (elems.flatten ++ rest) hlen hd
  have rd := readPoints_framed sizeC sizeU ops hpos hle elems
    (if dst.length ≠ elems.length then List.replicate elems.length ops.zero else dst)
    ⟨⟨elems.flatten ++ rest, dec.r.term⟩, wrapInt64 (dec.n + 4)⟩ rest
    (sliceFor_length ops.zero dst elems.length) (wrapInt64_idem _) rfl hf ha
  have hn : wrapInt64 (wrapInt64 (dec.n + 4) + ((elems.map List.length).sum : Nat))
      = wrapInt64 (dec.n + ((4 + (elems.map List.length).sum : Nat) : Int)) := by
    rw [wrapInt64_wrap_add]
    congr 1
    push_cast
    ring
  simp only [Decoder.decodeSlice, r0, rd, hn]
  generalize (if dst.length ≠ elems.length then List.replicate elems.length ops.zero else dst)
    = dst'
  split <;> rfl

theorem decodeSlice_rejected {G : Type} (sizeC sizeU : Nat) (ops : PointOps G) (hpos : 0 < sizeC)
    (hle : sizeC ≤ sizeU) (dec : Decoder) (dst : List G) (pre : List (List Byte))
    (e : List Byte) (post : List (List Byte)) (rest : List Byte)
    (hlen : (pre ++ e :: post).length < 2 ^ 32)
    (hd : dec.r.data = beBytes 4 (pre ++ e :: post).length ++ ((pre ++ e :: post).flatten ++ rest))
    (hf : ∀ e' ∈ pre, Framed sizeC sizeU e')
    (ha : ∀ e' ∈ pre, isCompressed (e'.headD 0) = false → SetBytesAccepts ops e')
    (hk : e.length = sizeU) (hc : isCompressed (e.headD 0) = false)
    (hrej : SetBytesRejects ops e) :
    (dec.decodeSlice sizeC sizeU ops dst).1
        = ⟨⟨post.flatten ++ rest, dec.r.term⟩,
            wrapInt64 (dec.n + ((4 + ((pre.map List.length).sum + sizeU) : Nat) : Int))⟩ ∧
      (dec.decodeSlice sizeC sizeU ops dst).2.2 ≠ none := by
  have r0 := readUint32_append dec _ ((pre ++ e :: post).flatten ++ rest) hlen hd
  have rd := readPoints_rejected sizeC sizeU ops hpos hle e post pre
    (if dst.length ≠ (pre ++ e :: post).length
      then List.replicate (pre ++ e :: post).length ops.zero else dst)
    ⟨⟨(pre ++ e :: post).flatten ++ rest, dec.r.term⟩, wrapInt64 (dec.n + 4)⟩ rest
    (sliceFor_length ops.zero dst _) rfl hf ha hk hc hrej
  have hn : wrapInt64 (wrapInt64 (dec.n + 4) + (((pre.map List.length).sum + sizeU : Nat) : Int))
      = wrapInt64 (dec.n + ((4 + ((pre.map List.length).sum + sizeU) : Nat) : Int)) := by
    rw [wrapInt64_wrap_add]
    congr 1
    push_cast
    ring
  rw [hn] at rd
  obtain ⟨rd1, rd2⟩ := rd
  simp only [Decoder.decodeSlice, r0]
  cases hr : (Decoder.readPoints sizeC sizeU ops
      ⟨⟨(pre ++ e :: post).flatten ++ rest, dec.r.term⟩, wrapInt64 (dec.n + 4)⟩
      (if dst.length ≠ (pre ++ e :: post).length
        then List.replicate (pre ++ e :: post).length ops.zero else dst)).2.2.2 with
  | none => exact absurd hr rd2
  | some err =>
    simp only [hr]
    exact ⟨rd1, by simp⟩


theorem writePoints_buffer {G : Type} (bytesOf : G → List Byte) (ts : List G) :
    ∀ enc : Encoder (List Byte), wrapInt64 enc.n = enc.n →
      Encoder.writePoints bufferSink bytesOf enc ts
        = (⟨enc.w ++ (ts.map bytesOf).flatten,
            wrapInt64 (enc.n + (((ts.map bytesOf).map List.length).sum : Nat)), enc.raw⟩, none) := by
  induction ts with
  | nil =>
    intro enc hn
    simp only [Encoder.writePoints, List.map_nil, List.flatten_nil, List.append_nil, List.sum_nil,
      Nat.cast_zero, add_zero, hn]
  | cons t ts ih =>
    intro enc _
    have hw : enc.write bufferSink (bytesOf t)
        = (⟨enc.w ++ bytesOf t, wrapInt64 (enc.n + (bytesOf t).length), enc.raw⟩, none) := rfl
    have hn' : wrapInt64 (wrapInt64 (enc.n + (bytesOf t).length)
          + (((ts.map bytesOf).map List.length).sum : Nat))
        = wrapInt64 (enc.n + ((((t :: ts).map bytesOf).map List.length).sum : Nat)) := by
      rw [wrapInt64_wrap_add]
      congr 1
      simp only [List.map_cons, List.sum_cons]
      push_cast
      ring
    simp only [Encoder.writePoints, hw]
    rw [ih _ (wrapInt64_idem _)]
    simp only [hn', List.map_cons, List.flatten_cons, List.append_assoc]

theorem writeSlice_buffer {G : Type} (bytesOf : G → List Byte) (ts : List G)
    (enc : Encoder (List Byte)) :
    enc.writeSlice bufferSink bytesOf ts
      = (⟨enc.w ++ (beBytes 4 (ts.length % 2 ^ 32) ++ (ts.map bytesOf).flatten),
          wrapInt64 (enc.n + ((4 + ((ts.map bytesOf).map List.length).sum : Nat) : Int)),
          enc.raw⟩, none) := by
  have hb : binaryWrite bufferSink enc.w (beBytes 4 (ts.length % 2 ^ 32))
      = (enc.w ++ beBytes 4 (ts.length % 2 ^ 32), none) := rfl
  have hn : wrapInt64 (wrapInt64 (enc.n + 4) + (((ts.map bytesOf).map List.length).sum : Nat))
      = wrapInt64 (enc.n + ((4 + ((ts.map bytesOf).map List.length).sum : Nat) : Int)) := by
    rw [wrapInt64_wrap_add]
    congr 1
    push_cast
    ring
  simp only [Encoder.writeSlice, hb]
  rw [writePoints_buffer bytesOf ts _ (wrapInt64_idem _)]
  simp only [hn, List.append_assoc]

theorem stage_compressed_roundTrip {G : Type} (sizeC sizeU : Nat) (ops : PointOps G)
    (s : List G) :
    ∀ dst : List G, dst.length = s.length → (∀ P ∈ s, BatchFacts sizeC sizeU ops P) →
      computeYAll ops (stagePoints ops dst (s.map ops.Bytes)).1
        (stagePoints ops dst (s.map ops.Bytes)).2 = (s, 0) := by
  induction s with
  | nil =>
    intro dst hl _
    cases dst with
    | nil => rfl
    | cons t ts => simp at hl
  | cons P Ps ih =>
    intro dst hl h
    cases dst with
    | nil => simp at hl
    | cons t ts =>
      have hrec := ih ts (by simpa using hl) (fun Q hQ => h Q (List.mem_cons_of_mem _ hQ))
      obtain ⟨_, ht, _, _, _, hu⟩ := h P (List.mem_cons_self _ _)
      have hc := isCompressed_of_compressedTag _ ht
      have hu' := hu t
      rw [List.map_cons, stagePoints_compressed ops t ts _ _ hc]
      cases hinf : (ops.unsafeSetCompressedBytes t (ops.Bytes P)).2 with
      | true =>
        rw [hinf] at hu'
        simp only [if_true] at hu'
        show computeYAll ops (_ :: _) (false :: _) = _
        rw [computeYAll_false, hrec, hu']
      | false =>
        rw [hinf] at hu'
        simp only [Bool.false_eq_true, if_false] at hu'
        show computeYAll ops (_ :: _) (true :: _) = _
        rw [computeYAll_true, hrec, hu']
        rfl

theorem stage_raw_roundTrip {G : Type} (sizeC sizeU : Nat) (ops : PointOps G) (s : List G) :
    ∀ dst : List G, dst.length = s.length → (∀ P ∈ s, BatchFacts sizeC sizeU ops P) →
      computeYAll ops (stagePoints ops dst (s.map ops.RawBytes)).1
        (stagePoints ops dst (s.map ops.RawBytes)).2 = (s, 0) := by
  induction s with
  | nil =>
    intro dst hl _
    cases dst with
    | nil => rfl
    | cons t ts => simp at hl
  | cons P Ps ih =>
    intro dst hl h
    cases dst with
    | nil => simp at hl
    | cons t ts =>
      have hrec := ih ts (by simpa using hl) (fun Q hQ => h Q (List.mem_cons_of_mem _ hQ))
      obtain ⟨_, _, _, hrt, hs, _⟩ := h P (List.mem_cons_self _ _)
      have hc := isCompressed_of_uncompressedTag _ hrt
      rw [List.map_cons, stagePoints_uncompressed ops t ts _ _ hc, computeYAll_false, hrec, hs t]

theorem roundTrip_slice {G : Type} (sizeC sizeU : Nat) (ops : PointOps G) (hpos : 0 < sizeC)
    (hle : sizeC ≤ sizeU) (raw : Bool) (s dst : List G) (term : Error)
    (hl : s.length < 2 ^ 32) (h : ∀ P ∈ s, BatchFacts sizeC sizeU ops P) :
    ∃ w n, Encoder.writeSlice bufferSink (if raw then ops.RawBytes else ops.Bytes) ⟨[], 0, raw⟩ s
          = (⟨w, n, raw⟩, none) ∧
      Decoder.decodeSlice sizeC sizeU ops (NewDecoder ⟨w, term⟩) dst = (⟨⟨[], term⟩, n⟩, s, none) := by
  have hmod : s.length % 2 ^ 32 = s.length := Nat.mod_eq_of_lt hl
  cases raw
  · refine ⟨_, _, writeSlice_buffer ops.Bytes s ⟨[], 0, false⟩, ?_⟩
    have hf : ∀ e ∈ s.map ops.Bytes, Framed sizeC sizeU e := by
      intro e he
      obtain ⟨P, hP, rfl⟩ := List.mem_map.mp he
      obtain ⟨hlen, ht, _⟩ := h P hP
      simp only [Framed, isCompressed_of_compressedTag _ ht, if_true, hlen]
    have ha : ∀ e ∈ s.map ops.Bytes, isCompressed (e.headD 0) = false → SetBytesAccepts ops e := by
      intro e he hc
      obtain ⟨P, hP, rfl⟩ := List.mem_map.mp he
      obtain ⟨_, ht, _⟩ := h P hP
      rw [isCompressed_of_compressedTag _ ht] at hc
      exact absurd hc (by simp)
    have hd := decodeSlice_framed sizeC sizeU ops hpos hle
      (NewDecoder ⟨[] ++ (beBytes 4 (s.length % 2 ^ 32) ++ (s.map ops.Bytes).flatten), term⟩) dst
      (s.map ops.Bytes) [] (by simpa using hl)
      (by rw [hmod]; simp [NewDecoder]) hf ha
    rw [hd, stage_compressed_roundTrip sizeC sizeU ops s _
      (by simpa using sliceFor_length ops.zero dst (s.map ops.Bytes).length) h]
    rfl
  · refine ⟨_, _, writeSlice_buffer ops.RawBytes s ⟨[], 0, true⟩, ?_⟩
    have hf : ∀ e ∈ s.map ops.RawBytes, Framed sizeC sizeU e := by
      intro e he
      obtain ⟨P, hP, rfl⟩ := List.mem_map.mp he
      obtain ⟨_, _, hlen, ht, _⟩ := h P hP
      simp only [Framed, isCompressed_of_uncompressedTag _ ht, Bool.false_eq_true, if_false, hlen]
    have ha : ∀ e ∈ s.map ops.RawBytes, isCompressed (e.headD 0) = false →
        SetBytesAccepts ops e := by
      intro e he _ old
      obtain ⟨P, hP, rfl⟩ := List.mem_map.mp he
      obtain ⟨_, _, _, _, hs, _⟩ := h P hP
      rw [hs old]
    have hd := decodeSlice_framed sizeC sizeU ops hpos hle
      (NewDecoder ⟨[] ++ (beBytes 4 (s.length % 2 ^ 32) ++ (s.map ops.RawBytes).flatten), term⟩)
      dst (s.map ops.RawBytes) [] (by simpa using hl)
      (by rw [hmod]; simp [NewDecoder]) hf ha
    rw [hd, stage_raw_roundTrip sizeC sizeU ops s _
      (by simpa using sliceFor_length ops.zero dst (s.map ops.RawBytes).length) h]
    rfl


theorem encodeThenDecode_g1Slice {Fr Fp G1 G2 : Type} (c : Collab Fr Fp G1 G2) (raw : Bool)
    (term : Error) (s dst : List G1) (hl : s.length < 2 ^ 32)
    (h : ∀ P ∈ s, BatchFacts SizeOfG1AffineCompressed SizeOfG1AffineUncompressed c.g1 P) :
    ∃ w n, encodeThenDecode c raw (.g1Slice s) (.g1Slice dst) term
      = ((⟨w, n, raw⟩, none), (⟨⟨[], term⟩, n⟩, .g1Slice s, none)) := by
  obtain ⟨w, n, he, hd⟩ := roundTrip_slice _ _ c.g1 (by decide) (by decide) raw s dst term hl h
  refine ⟨w, n, ?_⟩
  have e : (NewEncoder ([] : List Byte) (modeOptions raw)).Encode bufferSink c (.g1Slice s)
      = (⟨w, n, raw⟩, none) := by
    rw [← he]
    cases raw <;> rfl
  unfold encodeThenDecode
  rw [e]
  show (_, (Decoder.decodeSlice _ _ c.g1 _ dst).1, Target.g1Slice _, _) = _
  rw [hd]

theorem encodeThenDecode_g2Slice {Fr Fp G1 G2 : Type} (c : Collab Fr Fp G1 G2) (raw : Bool)
    (term : Error) (s dst : List G2) (hl : s.length < 2 ^ 32)
    (h : ∀ P ∈ s, BatchFacts SizeOfG2AffineCompressed SizeOfG2AffineUncompressed c.g2 P) :
    ∃ w n, encodeThenDecode c raw (.g2Slice s) (.g2Slice dst) term
      = ((⟨w, n, raw⟩, none), (⟨⟨[], term⟩, n⟩, .g2Slice s, none)) := by
  obtain ⟨w, n, he, hd⟩ := roundTrip_slice _ _ c.g2 (by decide) (by decide) raw s dst term hl h
  refine ⟨w, n, ?_⟩
  have e : (NewEncoder ([] : List Byte) (modeOptions raw)).Encode bufferSink c (.g2Slice s)
      = (⟨w, n, raw⟩, none) := by
    rw [← he]
    cases raw <;> rfl
  unfold encodeThenDecode
  rw [e]
  show (_, (Decoder.decodeSlice _ _ c.g2 _ dst).1, Target.g2Slice _, _) = _
  rw [hd]

/-- C2: for slices of `G1Affine` and of `G2Affine` points shorter than `2^32`, under
the collaborator facts about every element (framing and tags of `Bytes` and
`RawBytes`, `SetBytes` inverts `RawBytes`, `unsafeSetCompressedBytes` with
`unsafeComputeY` inverts `Bytes`), in compressed and in raw mode: `Encode(s)`
returns no error, and `Decode` into a slice from the bytes written returns no
error and leaves exactly `s` in the target (same length, same point at every
index), whatever the destination slice held before; `BytesRead()` equals
`BytesWritten()`. -/
theorem C2_point_slice_round_trip {Fr Fp G1 G2 : Type} (c : Collab Fr Fp G1 G2) (raw : Bool)
    (term : Error) (s1 dst1 : List G1) (s2 dst2 : List G2)
    (hl1 : s1.length < 2 ^ 32) (hl2 : s2.length < 2 ^ 32)
    (h1 : ∀ P ∈ s1, BatchFacts SizeOfG1AffineCompressed SizeOfG1AffineUncompressed c.g1 P)
    (h2 : ∀ P ∈ s2, BatchFacts SizeOfG2AffineCompressed SizeOfG2AffineUncompressed c.g2 P) :
    ((encodeThenDecode c raw (.g1Slice s1) (.g1Slice dst1) term).1.2 = none ∧
      (encodeThenDecode c raw (.g1Slice s1) (.g1Slice dst1) term).2.2.2 = none ∧
      (encodeThenDecode c raw (.g1Slice s1) (.g1Slice dst1) term).2.2.1 = .g1Slice s1 ∧
      (encodeThenDecode c raw (.g1Slice s1) (.g1Slice dst1) term).2.1.BytesRead
        = (encodeThenDecode c raw (.g1Slice s1) (.g1Slice dst1) term).1.1.BytesWritten) ∧
    ((encodeThenDecode c raw (.g2Slice s2) (.g2Slice dst2) term).1.2 = none ∧
      (encodeThenDecode c raw (.g2Slice s2) (.g2Slice dst2) term).2.2.2 = none ∧
      (encodeThenDecode c raw (.g2Slice s2) (.g2Slice dst2) term).2.2.1 = .g2Slice s2 ∧
      (encodeThenDecode c raw (.g2Slice s2) (.g2Slice dst2) term).2.1.BytesRead
        = (encodeThenDecode c raw (.g2Slice s2) (.g2Slice dst2) term).1.1.BytesWritten) := by
  obtain ⟨w1, n1, e1⟩ := encodeThenDecode_g1Slice c raw term s1 dst1 hl1 h1
  obtain ⟨w2, n2, e2⟩ := encodeThenDecode_g2Slice c raw term s2 dst2 hl2 h2
  rw [e1, e2]
  exact ⟨⟨rfl, rfl, rfl, rfl⟩, ⟨rfl, rfl, rfl, rfl⟩⟩

theorem tablePointOps_unsafe_any (size gx gy gyNeg : Nat) (P : Pt)
    (h : if ((tablePointOps size gx gy gyNeg).unsafeSetCompressedBytes infPt
          ((tablePointOps size gx gy gyNeg).Bytes P)).2 = true
      then ((tablePointOps size gx gy gyNeg).unsafeSetCompressedBytes infPt
          ((tablePointOps size gx gy gyNeg).Bytes P)).1 = P
      else (tablePointOps size gx gy gyNeg).unsafeComputeY
          ((tablePointOps size gx gy gyNeg).unsafeSetCompressedBytes infPt
            ((tablePointOps size gx gy gyNeg).Bytes P)).1 = (P, none)) :
    ∀ old, if ((tablePointOps size gx gy gyNeg).unsafeSetCompressedBytes old
          ((tablePointOps size gx gy gyNeg).Bytes P)).2 = true
      then ((tablePointOps size gx gy gyNeg).unsafeSetCompressedBytes old
          ((tablePointOps size gx gy gyNeg).Bytes P)).1 = P
      else (tablePointOps size gx gy gyNeg).unsafeComputeY
          ((tablePointOps size gx gy gyNeg).unsafeSetCompressedBytes old
            ((tablePointOps size gx gy gyNeg).Bytes P)).1 = (P, none) :=
  fun _ => h

set_option maxRecDepth 100000 in
theorem testCollab_g1_batch :
    ∀ P ∈ [genPt, infPt, negGenPt],
      BatchFacts SizeOfG1AffineCompressed SizeOfG1AffineUncompressed testCollab.g1 P := by
  intro P hP
  simp only [List.mem_cons, List.mem_singleton, List.not_mem_nil, or_false] at hP
  rcases hP with rfl | rfl | rfl
  · exact ⟨by decide, by decide, by decide, by decide, fun _ => by rfl,
      tablePointOps_unsafe_any _ _ _ _ _ (by decide)⟩
  · exact ⟨by decide, by decide, by decide, by decide, fun _ => by rfl,
      tablePointOps_unsafe_any _ _ _ _ _ (by decide)⟩
  · exact ⟨by decide, by decide, by decide, by decide, fun _ => by rfl,
      tablePointOps_unsafe_any _ _ _ _ _ (by decide)⟩

set_option maxRecDepth 100000 in
theorem testCollab_g2_batch :
    ∀ P ∈ [negG2GenPt, g2GenPt],
      BatchFacts SizeOfG2AffineCompressed SizeOfG2AffineUncompressed testCollab.g2 P := by
  intro P hP
  simp only [List.mem_cons, List.mem_singleton, List.not_mem_nil, or_false] at hP
  rcases hP with rfl | rfl
  · exact ⟨by decide, by decide, by decide, by decide, fun _ => by rfl,
      tablePointOps_unsafe_any _ _ _ _ _ (by decide)⟩
  · exact ⟨by decide, by decide, by decide, by decide, fun _ => by rfl,
      tablePointOps_unsafe_any _ _ _ _ _ (by decide)⟩

set_option maxRecDepth 100000 in
theorem testCollab_slice_bytesRead :
    (encodeThenDecode testCollab false (.g1Slice [genPt, infPt, negGenPt])
        (.g1Slice [negGenPt]) Error.EOF).2.1.BytesRead = 148 := by
  rfl

/-- C2 at the slices `[g, O, -g]` of `G1Affine` and `[-g, g]` of `G2Affine`, in
compressed mode, decoding into slices of another length and of the same length
that held other points. -/
theorem C2_point_slice_round_trip_witness :
    (encodeThenDecode testCollab false (.g1Slice [genPt, infPt, negGenPt])
        (.g1Slice [negGenPt]) Error.EOF).2.2.1 = .g1Slice [genPt, infPt, negGenPt] ∧
      (encodeThenDecode testCollab false (.g2Slice [negG2GenPt, g2GenPt])
        (.g2Slice [infPt, infPt]) Error.EOF).2.2.1 = .g2Slice [negG2GenPt, g2GenPt] ∧
      (encodeThenDecode testCollab false (.g1Slice [genPt, infPt, negGenPt])
        (.g1Slice [negGenPt]) Error.EOF).2.1.BytesRead = 148 :=
  have h := C2_point_slice_round_trip testCollab false Error.EOF [genPt, infPt, negGenPt]
    [negGenPt] [negG2GenPt, g2GenPt] [infPt, infPt] (by simp) (by simp)
    testCollab_g1_batch testCollab_g2_batch
  ⟨h.1.2.2.1, h.2.2.2.1, testCollab_slice_bytesRead⟩

/-! ## Batch decoding and undefined tags -/

theorem decodeSlice_outcome {G : Type} (sizeC sizeU : Nat) (ops : PointOps G) (hpos : 0 < sizeC)
    (hle : sizeC ≤ sizeU) (dec : Decoder) (dst : List G) (elems : List (List Byte))
    (rest : List Byte) (hlen : elems.length < 2 ^ 32)
    (hd : dec.r.data = beBytes 4 elems.length ++ (elems.flatten ++ rest))
    (hf : ∀ e ∈ elems, Framed sizeC sizeU e) :
    BatchOutcome sizeU ops dec elems rest
      (dec.decodeSlice sizeC sizeU ops dst).1 (dec.decodeSlice sizeC sizeU ops dst).2.2 := by
  constructor
  · intro ha
    have h := decodeSlice_framed sizeC sizeU ops hpos hle dec dst elems rest hlen hd hf ha
    have hl := sliceFor_length ops.zero dst elems.length
    rw [h]
    refine ⟨rfl, ?_, ?_⟩
    · intro hfail
      have := nbErrs_ne_zero ops elems _ hl hfail
      simp only [this, ne_eq, not_false_eq_true, if_true]
    · intro hpass
      have := nbErrs_eq_zero ops elems _ hl hpass
      simp only [this, ne_eq, not_true_eq_false, if_false]
  · intro pre e post he ha hc hrej
    subst he
    have hfe : Framed sizeC sizeU e := hf e (by simp)
    have hk : e.length = sizeU := by
      simp only [Framed, hc, Bool.false_eq_true, if_false] at hfe
      exact hfe
    exact decodeSlice_rejected sizeC sizeU ops hpos hle dec dst pre e post rest hlen hd
      (fun e' he' => hf e' (by simp [he'])) ha hk hc hrej

/-- C5, as amended: for a stream holding a 4-byte length `n < 2^32`, then `n`
well-framed point encodings (any mix of compressed and uncompressed), then `rest`,
`Decode` into a `*[]G1Affine` and into a `*[]G2Affine` has the outcome
`BatchOutcome`: when `SetBytes` accepts every uncompressed element the whole
sequence is consumed, with "point decompression failed" if validation of a
compressed element fails and no error if none fails; when `SetBytes` rejects an
uncompressed element `Decode` returns an error at once and `BytesRead()` covers
the stream only up to and including that element. -/
theorem C5_batch_decode_outcome {Fr Fp G1 G2 : Type} (c : Collab Fr Fp G1 G2)
    (dec1 dec2 : Decoder) (dst1 : List G1) (dst2 : List G2) (elems1 elems2 : List (List Byte))
    (rest1 rest2 : List Byte) (hlen1 : elems1.length < 2 ^ 32) (hlen2 : elems2.length < 2 ^ 32)
    (hd1 : dec1.r.data = beBytes 4 elems1.length ++ (elems1.flatten ++ rest1))
    (hd2 : dec2.r.data = beBytes 4 elems2.length ++ (elems2.flatten ++ rest2))
    (hf1 : ∀ e ∈ elems1, Framed SizeOfG1AffineCompressed SizeOfG1AffineUncompressed e)
    (hf2 : ∀ e ∈ elems2, Framed SizeOfG2AffineCompressed SizeOfG2AffineUncompressed e) :
    BatchOutcome SizeOfG1AffineUncompressed c.g1 dec1 elems1 rest1
        (dec1.Decode c (.g1Slice dst1)).1 (dec1.Decode c (.g1Slice dst1)).2.2 ∧
      BatchOutcome SizeOfG2AffineUncompressed c.g2 dec2 elems2 rest2
        (dec2.Decode c (.g2Slice dst2)).1 (dec2.Decode c (.g2Slice dst2)).2.2 :=
  ⟨decodeSlice_outcome _ _ c.g1 (by decide) (by decide) dec1 dst1 elems1 rest1 hlen1 hd1 hf1,
    decodeSlice_outcome _ _ c.g2 (by decide) (by decide) dec2 dst2 elems2 rest2 hlen2 hd2 hf2⟩


theorem tablePointOps_computeYFails (size gx gy gyNeg : Nat) (e : List Byte)
    (h : ((tablePointOps size gx gy gyNeg).unsafeSetCompressedBytes infPt e).2 = false ∧
      ((tablePointOps size gx gy gyNeg).unsafeComputeY
        ((tablePointOps size gx gy gyNeg).unsafeSetCompressedBytes infPt e).1).2 ≠ none) :
    ComputeYFails (tablePointOps size gx gy gyNeg) e :=
  fun _ => h

theorem tablePointOps_computeYPasses (size gx gy gyNeg : Nat) (e : List Byte)
    (h : ((tablePointOps size gx gy gyNeg).unsafeSetCompressedBytes infPt e).2 = true ∨
      ((tablePointOps size gx gy gyNeg).unsafeComputeY
        ((tablePointOps size gx gy gyNeg).unsafeSetCompressedBytes infPt e).1).2 = none) :
    ComputeYPasses (tablePointOps size gx gy gyNeg) e :=
  fun _ => h

set_option maxRecDepth 100000 in
theorem mixedElems_framed :
    ∀ e ∈ mixedElems, Framed SizeOfG1AffineCompressed SizeOfG1AffineUncompressed e := by
  decide

set_option maxRecDepth 100000 in
theorem mixedElems_accepted :
    ∀ e ∈ mixedElems, isCompressed (e.headD 0) = false → SetBytesAccepts testCollab.g1 e := by
  intro e he hc
  simp only [mixedElems, List.mem_cons, List.mem_singleton, List.not_mem_nil, or_false] at he
  rcases he with rfl | rfl | rfl
  · exact fun _ => by rfl
  · exact absurd hc (by decide)
  · exact absurd hc (by decide)

set_option maxRecDepth 100000 in
theorem mixedElems_fails :
    ∃ e ∈ mixedElems, isCompressed (e.headD 0) = true ∧ ComputeYFails testCollab.g1 e :=
  ⟨noRootElement, by simp [mixedElems], by decide, tablePointOps_computeYFails _ _ _ _ _ (by decide)⟩

set_option maxRecDepth 100000 in
theorem g2Elems_facts :
    (∀ e ∈ [testCollab.g2.Bytes g2GenPt],
        Framed SizeOfG2AffineCompressed SizeOfG2AffineUncompressed e) ∧
      (∀ e ∈ [testCollab.g2.Bytes g2GenPt],
        isCompressed (e.headD 0) = false → SetBytesAccepts testCollab.g2 e) ∧
      (∀ e ∈ [testCollab.g2.Bytes g2GenPt],
        isCompressed (e.headD 0) = true → ComputeYPasses testCollab.g2 e) := by
  refine ⟨by decide, ?_, ?_⟩
  · intro e he hc
    simp only [List.mem_singleton] at he
    subst he
    exact absurd hc (by decide)
  · intro e he _
    simp only [List.mem_singleton] at he
    subst he
    exact tablePointOps_computeYPasses _ _ _ _ _ (by decide)

set_option maxRecDepth 100000 in
theorem mixedElems_total :
    wrapInt64 ((NewDecoder ⟨sliceStream mixedElems, Error.EOF⟩).n
      + ((4 + (mixedElems.map List.length).sum : Nat) : Int)) = 196 := by
  decide

/-- C5 as amended, at a `G1Affine` stream of three elements whose second, compressed,
element has no point (the whole stream of 196 bytes is consumed and the error is
"point decompression failed") and at a `G2Affine` stream of one valid element (no
error). -/
theorem C5_batch_decode_outcome_witness :
    ((NewDecoder ⟨sliceStream mixedElems, Error.EOF⟩).Decode testCollab (.g1Slice [])).2.2
        = some Error.pointDecompressionFailed ∧
      ((NewDecoder ⟨sliceStream mixedElems, Error.EOF⟩).Decode testCollab
        (.g1Slice [])).1.BytesRead = 196 ∧
      ((NewDecoder ⟨sliceStream [testCollab.g2.Bytes g2GenPt], Error.EOF⟩).Decode testCollab
        (.g2Slice [])).2.2 = none :=
  have h := C5_batch_decode_outcome testCollab
    (NewDecoder ⟨sliceStream mixedElems, Error.EOF⟩)
    (NewDecoder ⟨sliceStream [testCollab.g2.Bytes g2GenPt], Error.EOF⟩) [] []
    mixedElems [testCollab.g2.Bytes g2GenPt] [] [] (by simp [mixedElems]) (by simp) rfl rfl
    mixedElems_framed g2Elems_facts.1
  ⟨(h.1.1 mixedElems_accepted).2.1 mixedElems_fails,
    (congrArg Decoder.n (h.1.1 mixedElems_accepted).1).trans mixedElems_total,
    (h.2.1 g2Elems_facts.2.1).2.2 g2Elems_facts.2.2⟩

set_option maxRecDepth 100000 in
theorem rejectedElems_facts :
    (∀ e ∈ rejectedElems, Framed SizeOfG1AffineCompressed SizeOfG1AffineUncompressed e) ∧
      (testCollab.g1.SetBytes infPt offCurveElement).2 = some pointNotOnCurve ∧
      ((NewDecoder ⟨sliceStream rejectedElems, Error.EOF⟩).Decode testCollab
        (.g1Slice [])).2.2 = some pointNotOnCurve ∧
      ((NewDecoder ⟨sliceStream rejectedElems, Error.EOF⟩).Decode testCollab
        (.g1Slice [])).1.BytesRead = 100 ∧
      (4 + (rejectedElems.map List.length).sum : Int) = 148 := by
  decide

/-- C5 refuted as stated: the stream holds the length `2`, an uncompressed element
that is well framed but no point of the curve, and a valid compressed element;
validation of the first element fails, `Decode` returns its error, and
`BytesRead()` is `100`, not the full length `4 + 96 + 48 = 148`. -/
theorem C5_counterexample :
    (∀ e ∈ rejectedElems, Framed SizeOfG1AffineCompressed SizeOfG1AffineUncompressed e) ∧
      (testCollab.g1.SetBytes infPt offCurveElement).2 = some pointNotOnCurve ∧
      ((NewDecoder ⟨sliceStream rejectedElems, Error.EOF⟩).Decode testCollab
        (.g1Slice [])).2.2 = some pointNotOnCurve ∧
      ((NewDecoder ⟨sliceStream rejectedElems, Error.EOF⟩).Decode testCollab
        (.g1Slice [])).1.BytesRead = 100 ∧
      (4 + (rejectedElems.map List.length).sum : Int) = 148 :=
  rejectedElems_facts


theorem decodeSlice_error_kinds {G : Type} (sizeC sizeU : Nat) (ops : PointOps G)
    (hpos : 0 < sizeC) (hle : sizeC ≤ sizeU) (dec : Decoder) (dst : List G)
    (elems : List (List Byte)) (rest : List Byte) (hlen : elems.length < 2 ^ 32)
    (hd : dec.r.data = beBytes 4 elems.length ++ (elems.flatten ++ rest))
    (hf : ∀ e ∈ elems, Framed sizeC sizeU e)
    (ha : ∀ e ∈ elems, isCompressed (e.headD 0) = false → SetBytesAccepts ops e) :
    (dec.decodeSlice sizeC sizeU ops dst).2.2 = none ∨
      (dec.decodeSlice sizeC sizeU ops dst).2.2 = some Error.pointDecompressionFailed := by
  rw [decodeSlice_framed sizeC sizeU ops hpos hle dec dst elems rest hlen hd hf ha]
  generalize (if dst.length ≠ elems.length then List.replicate elems.length ops.zero else dst)
    = dst'
  by_cases h : (computeYAll ops (stagePoints ops dst' elems).1 (stagePoints ops dst' elems).2).2
      ≠ 0
  · exact Or.inr (if_pos h)
  · exact Or.inl (if_neg h)

set_option maxRecDepth 100000 in
theorem top_tag_facts :
    ∀ b : Byte, b &&& mMask = 0b111 <<< 5 →
      b &&& mMask ∉ definedTags ∧ msbSet b = true ∧ isCompressed b = true := by
  decide

/-- C3, as amended: `Decode` does not reject the undefined tag that has the most
significant bit set. A first byte `b` whose top three bits are `0b111` carries none
of the five tags, has its most significant bit set and is classified as
compressed by `isCompressed`; so `Decode` into a `*G1Affine` (`*G2Affine`) reads
exactly the compressed size and returns what `SetBytes` returns on those bytes,
and `Decode` into a slice, for a well-framed stream whose elements are all
classified by their most significant bit (their tag is defined or `0b111`) and
whose uncompressed elements `SetBytes` accepts, returns no error or "point
decompression failed", never another error. Nothing is said of a first byte
with an undefined tag and the most significant bit clear. -/
theorem C3_undefined_tag_read_as_compressed {Fr Fp G1 G2 : Type} (c : Collab Fr Fp G1 G2)
    (b : Byte) (hb : b &&& mMask = 0b111 <<< 5) :
    (b &&& mMask ∉ definedTags ∧ msbSet b = true ∧ isCompressed b = true) ∧
    (∀ (dec : Decoder) (t : G1) (bs rest : List Byte), dec.r.data = (b :: bs) ++ rest →
      (b :: bs).length = SizeOfG1AffineCompressed →
      dec.Decode c (.g1Affine t)
        = (⟨⟨rest, dec.r.term⟩, wrapInt64 (dec.n + SizeOfG1AffineCompressed)⟩,
            .g1Affine (c.g1.SetBytes t (b :: bs)).1, (c.g1.SetBytes t (b :: bs)).2)) ∧
    (∀ (dec : Decoder) (t : G2) (bs rest : List Byte), dec.r.data = (b :: bs) ++ rest →
      (b :: bs).length = SizeOfG2AffineCompressed →
      dec.Decode c (.g2Affine t)
        = (⟨⟨rest, dec.r.term⟩, wrapInt64 (dec.n + SizeOfG2AffineCompressed)⟩,
            .g2Affine (c.g2.SetBytes t (b :: bs)).1, (c.g2.SetBytes t (b :: bs)).2)) ∧
    (∀ (dec : Decoder) (dst : List G1) (pre post : List (List Byte)) (bs rest : List Byte),
      (pre ++ (b :: bs) :: post).length < 2 ^ 32 →
      dec.r.data = beBytes 4 (pre ++ (b :: bs) :: post).length
        ++ ((pre ++ (b :: bs) :: post).flatten ++ rest) →
      (∀ e ∈ pre ++ (b :: bs) :: post,
        Framed SizeOfG1AffineCompressed SizeOfG1AffineUncompressed e) →
      (∀ e ∈ pre ++ (b :: bs) :: post, isCompressed (e.headD 0) = msbSet (e.headD 0)) →
      (∀ e ∈ pre ++ (b :: bs) :: post,
        isCompressed (e.headD 0) = false → SetBytesAccepts c.g1 e) →
      (dec.Decode c (.g1Slice dst)).2.2 = none ∨
        (dec.Decode c (.g1Slice dst)).2.2 = some Error.pointDecompressionFailed) ∧
    (∀ (dec : Decoder) (dst : List G2) (pre post : List (List Byte)) (bs rest : List Byte),
      (pre ++ (b :: bs) :: post).length < 2 ^ 32 →
      dec.r.data = beBytes 4 (pre ++ (b :: bs) :: post).length
        ++ ((pre ++ (b :: bs) :: post).flatten ++ rest) →
      (∀ e ∈ pre ++ (b :: bs) :: post,
        Framed SizeOfG2AffineCompressed SizeOfG2AffineUncompressed e) →
      (∀ e ∈ pre ++ (b :: bs) :: post, isCompressed (e.headD 0) = msbSet (e.headD 0)) →
      (∀ e ∈ pre ++ (b :: bs) :: post,
        isCompressed (e.headD 0) = false → SetBytesAccepts c.g2 e) →
      (dec.Decode c (.g2Slice dst)).2.2 = none ∨
        (dec.Decode c (.g2Slice dst)).2.2 = some Error.pointDecompressionFailed) := by
  have hc : isCompressed b = true := (top_tag_facts b hb).2.2
  refine ⟨top_tag_facts b hb, ?_, ?_, ?_, ?_⟩
  · intro dec t bs rest hd hk
    have h := decodeAffine_compressed SizeOfG1AffineCompressed SizeOfG1AffineUncompressed c.g1
      dec t (b :: bs) rest hd hk hc
    show (_, Target.g1Affine _, _) = _
    rw [h]
  · intro dec t bs rest hd hk
    have h := decodeAffine_compressed SizeOfG2AffineCompressed SizeOfG2AffineUncompressed c.g2
      dec t (b :: bs) rest hd hk hc
    show (_, Target.g2Affine _, _) = _
    rw [h]
  · intro dec dst pre post bs rest hlen hd hf _ ha
    exact decodeSlice_error_kinds _ _ c.g1 (by decide) (by decide) dec dst _ rest hlen hd hf ha
  · intro dec dst pre post bs rest hlen hd hf _ ha
    exact decodeSlice_error_kinds _ _ c.g2 (by decide) (by decide) dec dst _ rest hlen hd hf ha

/-- C3 as amended, at the byte `0xE5` (tag bits `0b111`): its tag is undefined, its most
significant bit is set and it is classified as compressed. -/
theorem C3_undefined_tag_read_as_compressed_witness :
    (0xE5 : Byte) &&& mMask = 0b111 <<< 5 ∧
      ((0xE5 : Byte) &&& mMask ∉ definedTags ∧ msbSet 0xE5 = true ∧ isCompressed 0xE5 = true) :=
  ⟨by decide, (C3_undefined_tag_read_as_compressed testCollab 0xE5 (by decide)).1⟩

set_option maxRecDepth 100000 in
theorem undefinedTagElement_facts :
    undefinedTagElement.headD 0 &&& mMask ∉ definedTags ∧
      Framed SizeOfG1AffineCompressed SizeOfG1AffineUncompressed undefinedTagElement ∧
      ((NewDecoder ⟨sliceStream [undefinedTagElement], Error.EOF⟩).Decode testCollab
        (.g1Slice [])).2.2 = none ∧
      ((NewDecoder ⟨undefinedTagElement, Error.EOF⟩).Decode testCollab
        (.g1Affine infPt)).2.2 = none := by
  decide

/-- C3 refuted as stated: the first byte of the element carries the undefined tag
`0b111` on the x-coordinate of the generator; `Decode` into a `*[]G1Affine` of
the stream holding the length `1` and this element returns no error, and so does
`Decode` into a `*G1Affine` of the element alone. -/
theorem C3_counterexample :
    undefinedTagElement.headD 0 &&& mMask ∉ definedTags ∧
      Framed SizeOfG1AffineCompressed SizeOfG1AffineUncompressed undefinedTagElement ∧
      ((NewDecoder ⟨sliceStream [undefinedTagElement], Error.EOF⟩).Decode testCollab
        (.g1Slice [])).2.2 = none ∧
      ((NewDecoder ⟨undefinedTagElement, Error.EOF⟩).Decode testCollab
        (.g1Affine infPt)).2.2 = none :=
  undefinedTagElement_facts

/-! ## Encoder counter -/

/-- The cases of `encode` and `encodeRaw` that write through `enc.w.Write` add to the
counter exactly the number of bytes the sink reports as accepted. -/
theorem write_counts_accepted {σ : Type} (W : Sink σ) (enc : Encoder σ) (buf : List Byte) :
    (enc.write W buf).1.n = wrapInt64 (enc.n + (W enc.w buf).2.1) ∧
      (enc.write W buf).2 = (W enc.w buf).2.2 :=
  ⟨rfl, rfl⟩

set_option maxRecDepth 100000 in
theorem limitSink_runs :
    ((NewEncoder (([], 0) : List Byte × Nat) []).Encode limitSink testCollab (.uint64 7)).2
        = some (Error.sink 0) ∧
      ((NewEncoder (([], 0) : List Byte × Nat) []).Encode limitSink testCollab
        (.uint64 7)).1.BytesWritten = 8 ∧
      ((NewEncoder (([], 0) : List Byte × Nat) []).Encode limitSink testCollab
        (.uint64 7)).1.w.1 = [] ∧
      ((NewEncoder (([], 2) : List Byte × Nat) []).Encode limitSink testCollab
        (.g1Slice [genPt])).2 = some (Error.sink 0) ∧
      ((NewEncoder (([], 2) : List Byte × Nat) []).Encode limitSink testCollab
        (.g1Slice [genPt])).1.BytesWritten = 0 ∧
      ((NewEncoder (([], 2) : List Byte × Nat) []).Encode limitSink testCollab
        (.g1Slice [genPt])).1.w.1 = [0, 0] := by
  decide

/-- C4: the counter is not exact when an integer write fails. `Encode(uint64(7))` on a
sink that accepts no byte returns the sink's error and leaves `BytesWritten()` at
`8` with nothing accepted; `Encode` of a one-point slice on a sink with room for
two bytes returns the error with `BytesWritten()` at `0` although the sink
accepted the first two bytes of the length. -/
theorem C4_counter_off_on_failed_integer_write :
    ((NewEncoder (([], 0) : List Byte × Nat) []).Encode limitSink testCollab (.uint64 7)).2
        = some (Error.sink 0) ∧
      ((NewEncoder (([], 0) : List Byte × Nat) []).Encode limitSink testCollab
        (.uint64 7)).1.BytesWritten = 8 ∧
      ((NewEncoder (([], 0) : List Byte × Nat) []).Encode limitSink testCollab
        (.uint64 7)).1.w.1 = [] ∧
      ((NewEncoder (([], 2) : List Byte × Nat) []).Encode limitSink testCollab
        (.g1Slice [genPt])).2 = some (Error.sink 0) ∧
      ((NewEncoder (([], 2) : List Byte × Nat) []).Encode limitSink testCollab
        (.g1Slice [genPt])).1.BytesWritten = 0 ∧
      ((NewEncoder (([], 2) : List Byte × Nat) []).Encode limitSink testCollab
        (.g1Slice [genPt])).1.w.1 = [0, 0] :=
  limitSink_runs

/-! ## Further constants, tags, modes and unsupported values -/

/-- C15: for a `uint64`, an `*fr.Element` and an `*fp.Element`, `encode` and `encodeRaw`
return the same result on every sink and from every encoder state: the same sink
state after the same write, the same counter and the same error. -/
theorem C15_raw_mode_ignored_for_scalars {σ Fr Fp G1 G2 : Type} (W : Sink σ)
    (c : Collab Fr Fp G1 G2) (enc : Encoder σ) (u : Nat) (a : Fr) (b : Fp) :
    enc.encode W c (.uint64 u) = enc.encodeRaw W c (.uint64 u) ∧
      enc.encode W c (.frElement a) = enc.encodeRaw W c (.frElement a) ∧
      enc.encode W c (.fpElement b) = enc.encodeRaw W c (.fpElement b) :=
  ⟨rfl, rfl, rfl⟩

/-- C16: `Decode` of a target that is no pointer, a nil pointer, or a pointer to a type
outside the supported set returns an error and the decoder unchanged (no byte
read, `BytesRead()` as before); `Encode` of a value outside the supported set
returns an error and the encoder unchanged (nothing written, `BytesWritten()` as
before), in either mode. -/
theorem C16_unsupported_rejected_before_io {σ Fr Fp G1 G2 : Type} (W : Sink σ)
    (c : Collab Fr Fp G1 G2) (dec : Decoder) (enc : Encoder σ) :
    dec.Decode c .notPointer = (dec, .notPointer, some Error.needPointer) ∧
      dec.Decode c .nilPointer = (dec, .nilPointer, some Error.needPointer) ∧
      dec.Decode c .otherPointer = (dec, .otherPointer, some Error.decodeUnsupported) ∧
      enc.Encode W c .other = (enc, some Error.encodeUnsupported) := by
  refine ⟨rfl, rfl, rfl, ?_⟩
  unfold Encoder.Encode
  split <;> rfl

/-- C17: the literals of `g1Gen` are reduced base-field elements with `Z = 1`, and
`Y^2` is congruent to `X^3 + bCurveCoeff = X^3 + 4` modulo `p`. -/
theorem C17_g1_generator_on_curve :
    g1GenX < pModulus ∧ g1GenY < pModulus ∧ g1GenZ = 1 ∧ bCurveCoeff = 4 ∧
      g1GenY ^ 2 % pModulus = (g1GenX ^ 3 + bCurveCoeff) % pModulus := by
  decide

set_option maxRecDepth 100000 in
theorem tag_constants_bits :
    definedTags.Nodup ∧ (∀ t ∈ definedTags, t &&& mMask = t ∧ t &&& mMaskCompl = 0) ∧
      (∀ t ∈ definedTags, t &&& 0x80 ≠ 0 ↔
        t = mCompressedSmallest ∨ t = mCompressedLargest ∨ t = mCompressedInfinity) ∧
      (∀ t ∈ definedTags, t &&& 0x40 ≠ 0 ↔
        t = mUncompressedInfinity ∨ t = mCompressedInfinity) ∧
      (∀ t ∈ definedTags, t &&& 0x20 ≠ 0 ↔ t = mCompressedLargest) := by
  decide

/-- C18: the five tag constants are pairwise distinct, each equals itself masked by
`mMask` (its low five bits are zero), the most significant bit is set exactly for
the three compressed tags, the second-most significant bit exactly for the two
infinity tags, and the third-most significant bit exactly for
`mCompressedLargest`. -/
theorem C18_tag_constants_bits :
    definedTags.Nodup ∧ (∀ t ∈ definedTags, t &&& mMask = t ∧ t &&& mMaskCompl = 0) ∧
      (∀ t ∈ definedTags, t &&& 0x80 ≠ 0 ↔
        t = mCompressedSmallest ∨ t = mCompressedLargest ∨ t = mCompressedInfinity) ∧
      (∀ t ∈ definedTags, t &&& 0x40 ≠ 0 ↔
        t = mUncompressedInfinity ∨ t = mCompressedInfinity) ∧
      (∀ t ∈ definedTags, t &&& 0x20 ≠ 0 ↔ t = mCompressedLargest) :=
  tag_constants_bits

/-- C19: `lambdaGLV = xGen^2 - 1` and the scalar-field modulus `r` of the header
comment is `xGen^4 - xGen^2 + 1`, for `xGen = 15132376222941642752`. -/
theorem C19_lambda_and_r_from_seed :
    xGen = 15132376222941642752 ∧ (lambdaGLV : Int) = xGen ^ 2 - 1 ∧
      (rModulus : Int) = xGen ^ 4 - xGen ^ 2 + 1 := by
  decide

/-- C20: the value `w2 = w^2 mod p` computed for `thirdRootOneG2` from the literal `w` of
`thirdRootOneG1` satisfies `w2^3 mod p = 1`, `w2 ≠ 1`, `w2 ≠ w`, and `1 + w + w2`
is `0` modulo `p`. -/
theorem C20_thirdRootOneG2_other_root :
    thirdRootOneG2 = thirdRootOneG1 ^ 2 % pModulus ∧ thirdRootOneG2 ^ 3 % pModulus = 1 ∧
      thirdRootOneG2 ≠ 1 ∧ thirdRootOneG2 ≠ thirdRootOneG1 ∧
      (1 + thirdRootOneG1 + thirdRootOneG2) % pModulus = 0 := by
  decide

/-! ## Read lengths and wire formats -/

theorem data_split (data : List Byte) (k : Nat) (h : k ≤ data.length) :
    data = data.take k ++ data.drop k ∧ (data.take k).length = k :=
  ⟨(List.take_append_drop k data).symm, by simp [h]⟩

theorem decodeAffine_by_tag {G : Type} (sizeC sizeU : Nat) (ops : PointOps G) (hpos : 0 < sizeC)
    (hle : sizeC ≤ sizeU) (dec : Decoder) (t : G) (hlen : sizeU ≤ dec.r.data.length) :
    (hasUncompressedTag (dec.r.data.headD 0) →
      dec.decodeAffine sizeC sizeU ops t
        = (⟨⟨dec.r.data.drop sizeU, dec.r.term⟩, wrapInt64 (dec.n + sizeU)⟩,
            (ops.SetBytes t (dec.r.data.take sizeU)).1,
            (ops.SetBytes t (dec.r.data.take sizeU)).2)) ∧
    (hasCompressedTag (dec.r.data.headD 0) →
      dec.decodeAffine sizeC sizeU ops t
        = (⟨⟨dec.r.data.drop sizeC, dec.r.term⟩, wrapInt64 (dec.n + sizeC)⟩,
            (ops.SetBytes t (dec.r.data.take sizeC)).1,
            (ops.SetBytes t (dec.r.data.take sizeC)).2)) := by
  constructor
  · intro ht
    obtain ⟨hs, hl⟩ := data_split dec.r.data sizeU hlen
    have hh : (dec.r.data.take sizeU).headD 0 = dec.r.data.headD 0 :=
      headD_take _ _ (by omega)
    exact decodeAffine_uncompressed sizeC sizeU ops dec t _ _ hs hl hpos hle
      (by rw [hh]; exact isCompressed_of_uncompressedTag _ ht)
  · intro ht
    obtain ⟨hs, hl⟩ := data_split dec.r.data sizeC (by omega)
    have hh : (dec.r.data.take sizeC).headD 0 = dec.r.data.headD 0 := headD_take _ _ hpos
    exact decodeAffine_compressed sizeC sizeU ops dec t _ _ hs hl
      (by rw [hh]; exact isCompressed_of_compressedTag _ ht)

/-- C11: for a stream of at least `SizeOfG1AffineUncompressed` bytes, `Decode` into a
`*G1Affine` consumes exactly `SizeOfG1AffineUncompressed` bytes and hands exactly
those to `SetBytes` when the first byte carries `mUncompressed` or
`mUncompressedInfinity`, and consumes exactly `SizeOfG1AffineCompressed` bytes and
hands exactly those to `SetBytes` when it carries one of the three compressed
tags; likewise for `*G2Affine`; and `isCompressed` depends only on the top three
bits of the byte. -/
theorem C11_read_length_follows_tag {Fr Fp G1 G2 : Type} (c : Collab Fr Fp G1 G2)
    (dec1 dec2 : Decoder) (t1 : G1) (t2 : G2)
    (h1 : SizeOfG1AffineUncompressed ≤ dec1.r.data.length)
    (h2 : SizeOfG2AffineUncompressed ≤ dec2.r.data.length) :
    ((hasUncompressedTag (dec1.r.data.headD 0) →
        dec1.Decode c (.g1Affine t1)
          = (⟨⟨dec1.r.data.drop SizeOfG1AffineUncompressed, dec1.r.term⟩,
                wrapInt64 (dec1.n + SizeOfG1AffineUncompressed)⟩,
              .g1Affine (c.g1.SetBytes t1 (dec1.r.data.take SizeOfG1AffineUncompressed)).1,
              (c.g1.SetBytes t1 (dec1.r.data.take SizeOfG1AffineUncompressed)).2)) ∧
      (hasCompressedTag (dec1.r.data.headD 0) →
        dec1.Decode c (.g1Affine t1)
          = (⟨⟨dec1.r.data.drop SizeOfG1AffineCompressed, dec1.r.term⟩,
                wrapInt64 (dec1.n + SizeOfG1AffineCompressed)⟩,
              .g1Affine (c.g1.SetBytes t1 (dec1.r.data.take SizeOfG1AffineCompressed)).1,
              (c.g1.SetBytes t1 (dec1.r.data.take SizeOfG1AffineCompressed)).2))) ∧
    ((hasUncompressedTag (dec2.r.data.headD 0) →
        dec2.Decode c (.g2Affine t2)
          = (⟨⟨dec2.r.data.drop SizeOfG2AffineUncompressed, dec2.r.term⟩,
                wrapInt64 (dec2.n + SizeOfG2AffineUncompressed)⟩,
              .g2Affine (c.g2.SetBytes t2 (dec2.r.data.take SizeOfG2AffineUncompressed)).1,
              (c.g2.SetBytes t2 (dec2.r.data.take SizeOfG2AffineUncompressed)).2)) ∧
      (hasCompressedTag (dec2.r.data.headD 0) →
        dec2.Decode c (.g2Affine t2)
          = (⟨⟨dec2.r.data.drop SizeOfG2AffineCompressed, dec2.r.term⟩,
                wrapInt64 (dec2.n + SizeOfG2AffineCompressed)⟩,
              .g2Affine (c.g2.SetBytes t2 (dec2.r.data.take SizeOfG2AffineCompressed)).1,
              (c.g2.SetBytes t2 (dec2.r.data.take SizeOfG2AffineCompressed)).2))) ∧
    (∀ b b' : Byte, b &&& mMask = b' &&& mMask → isCompressed b = isCompressed b') := by
  have g1 := decodeAffine_by_tag SizeOfG1AffineCompressed SizeOfG1AffineUncompressed c.g1
    (by decide) (by decide) dec1 t1 h1
  have g2 := decodeAffine_by_tag SizeOfG2AffineCompressed SizeOfG2AffineUncompressed c.g2
    (by decide) (by decide) dec2 t2 h2
  refine ⟨⟨?_, ?_⟩, ⟨?_, ?_⟩, ?_⟩
  · intro ht
    show (_, Target.g1Affine _, _) = _
    rw [g1.1 ht]
  · intro ht
    show (_, Target.g1Affine _, _) = _
    rw [g1.2 ht]
  · intro ht
    show (_, Target.g2Affine _, _) = _
    rw [g2.1 ht]
  · intro ht
    show (_, Target.g2Affine _, _) = _
    rw [g2.2 ht]
  · intro b b' h
    simp only [isCompressed, h]

set_option maxRecDepth 100000 in
theorem twoPointStream_facts :
    SizeOfG1AffineUncompressed ≤ (NewDecoder ⟨twoPointStream, Error.EOF⟩).r.data.length ∧
      SizeOfG2AffineUncompressed ≤ (NewDecoder ⟨paddedStream, Error.EOF⟩).r.data.length ∧
      hasUncompressedTag ((NewDecoder ⟨twoPointStream, Error.EOF⟩).r.data.headD 0) ∧
      hasCompressedTag ((NewDecoder ⟨paddedStream, Error.EOF⟩).r.data.headD 0) := by
  decide

/-- C11 at a `G1Affine` stream that starts with an uncompressed point (96 bytes are
consumed) and at a `G2Affine` stream that starts with a compressed point (96 of
its 192 bytes are consumed). -/
theorem C11_read_length_follows_tag_witness :
    ((NewDecoder ⟨twoPointStream, Error.EOF⟩).Decode testCollab (.g1Affine infPt)).1.r.data
        = twoPointStream.drop SizeOfG1AffineUncompressed ∧
      ((NewDecoder ⟨paddedStream, Error.EOF⟩).Decode testCollab (.g2Affine infPt)).1.r.data
        = paddedStream.drop SizeOfG2AffineCompressed :=
  have h := C11_read_length_follows_tag testCollab (NewDecoder ⟨twoPointStream, Error.EOF⟩)
    (NewDecoder ⟨paddedStream, Error.EOF⟩) infPt infPt twoPointStream_facts.1
    twoPointStream_facts.2.1
  ⟨congrArg (fun r => r.1.r.data) (h.1.1 twoPointStream_facts.2.2.1),
    congrArg (fun r => r.1.r.data) (h.2.1.2 twoPointStream_facts.2.2.2)⟩

theorem sum_lengths {G : Type} (f : G → List Byte) (k : Nat) (s : List G)
    (h : ∀ P ∈ s, (f P).length = k) : ((s.map f).map List.length).sum = s.length * k := by
  induction s with
  | nil => simp
  | cons P Ps ih =>
    have hP := h P (List.mem_cons_self _ _)
    have hrec := ih (fun Q hQ => h Q (List.mem_cons_of_mem _ hQ))
    simp only [List.map_cons, List.sum_cons, List.length_cons, hP, hrec]
    ring

theorem writeSlice_sized {G : Type} (bytesOf : G → List Byte) (k : Nat) (s : List G)
    (enc : Encoder (List Byte)) (hl : s.length < 2 ^ 32) (hk : k ≤ 192)
    (hn : 0 ≤ enc.n ∧ enc.n < 2 ^ 62) (h : ∀ P ∈ s, (bytesOf P).length = k) :
    enc.writeSlice bufferSink bytesOf s
      = (⟨enc.w ++ (beBytes 4 s.length ++ (s.map bytesOf).flatten),
          enc.n + ((4 + s.length * k : Nat) : Int), enc.raw⟩, none) := by
  have hmod : s.length % 2 ^ 32 = s.length := Nat.mod_eq_of_lt hl
  have hb : s.length * k ≤ 2 ^ 32 * 192 := Nat.mul_le_mul (by omega) hk
  have hw : wrapInt64 (enc.n + ((4 + s.length * k : Nat) : Int))
      = enc.n + ((4 + s.length * k : Nat) : Int) := by
    apply wrapInt64_of_small
    · omega
    · omega
  rw [writeSlice_buffer, sum_lengths bytesOf k s h, hmod, hw]

/-- C13: for slices of `G1Affine` and `G2Affine` points shorter than `2^32`, whose
`Bytes` and `RawBytes` have the sizes of their group, on a sink that accepts
every write and from a counter below `2^62`: `Encode` in compressed mode emits
exactly the 4-byte big-endian length followed by the `Bytes` of the points in
index order and adds `4 + len(s) * SizeOfG1AffineCompressed` (resp. `G2`) to
`BytesWritten()`; in raw mode it emits the same length followed by every
`RawBytes` and adds `4 + len(s) * SizeOfG1AffineUncompressed` (resp. `G2`). -/
theorem C13_point_slice_wire_format {Fr Fp G1 G2 : Type} (c : Collab Fr Fp G1 G2)
    (enc : Encoder (List Byte)) (s1 : List G1) (s2 : List G2)
    (hl1 : s1.length < 2 ^ 32) (hl2 : s2.length < 2 ^ 32)
    (hn : 0 ≤ enc.n ∧ enc.n < 2 ^ 62)
    (hb1 : ∀ P ∈ s1, (c.g1.Bytes P).length = SizeOfG1AffineCompressed)
    (hr1 : ∀ P ∈ s1, (c.g1.RawBytes P).length = SizeOfG1AffineUncompressed)
    (hb2 : ∀ P ∈ s2, (c.g2.Bytes P).length = SizeOfG2AffineCompressed)
    (hr2 : ∀ P ∈ s2, (c.g2.RawBytes P).length = SizeOfG2AffineUncompressed) :
    (enc.raw = false →
      enc.Encode bufferSink c (.g1Slice s1)
          = (⟨enc.w ++ (beBytes 4 s1.length ++ (s1.map c.g1.Bytes).flatten),
              enc.n + ((4 + s1.length * SizeOfG1AffineCompressed : Nat) : Int), enc.raw⟩,
            none) ∧
        enc.Encode bufferSink c (.g2Slice s2)
          = (⟨enc.w ++ (beBytes 4 s2.length ++ (s2.map c.g2.Bytes).flatten),
              enc.n + ((4 + s2.length * SizeOfG2AffineCompressed : Nat) : Int), enc.raw⟩,
            none)) ∧
    (enc.raw = true →
      enc.Encode bufferSink c (.g1Slice s1)
          = (⟨enc.w ++ (beBytes 4 s1.length ++ (s1.map c.g1.RawBytes).flatten),
              enc.n + ((4 + s1.length * SizeOfG1AffineUncompressed : Nat) : Int), enc.raw⟩,
            none) ∧
        enc.Encode bufferSink c (.g2Slice s2)
          = (⟨enc.w ++ (beBytes 4 s2.length ++ (s2.map c.g2.RawBytes).flatten),
              enc.n + ((4 + s2.length * SizeOfG2AffineUncompressed : Nat) : Int), enc.raw⟩,
            none)) := by
  constructor
  · intro hraw
    have e1 : enc.Encode bufferSink c (.g1Slice s1) = enc.writeSlice bufferSink c.g1.Bytes s1 := by
      simp only [Encoder.Encode, hraw, Bool.false_eq_true, if_false, Encoder.encode]
    have e2 : enc.Encode bufferSink c (.g2Slice s2) = enc.writeSlice bufferSink c.g2.Bytes s2 := by
      simp only [Encoder.Encode, hraw, Bool.false_eq_true, if_false, Encoder.encode]
    rw [e1, e2]
    exact ⟨writeSlice_sized _ _ s1 enc hl1 (by decide) hn hb1,
      writeSlice_sized _ _ s2 enc hl2 (by decide) hn hb2⟩
  · intro hraw
    have e1 : enc.Encode bufferSink c (.g1Slice s1)
        = enc.writeSlice bufferSink c.g1.RawBytes s1 := by
      simp only [Encoder.Encode, hraw, if_true, Encoder.encodeRaw]
    have e2 : enc.Encode bufferSink c (.g2Slice s2)
        = enc.writeSlice bufferSink c.g2.RawBytes s2 := by
      simp only [Encoder.Encode, hraw, if_true, Encoder.encodeRaw]
    rw [e1, e2]
    exact ⟨writeSlice_sized _ _ s1 enc hl1 (by decide) hn hr1,
      writeSlice_sized _ _ s2 enc hl2 (by decide) hn hr2⟩

theorem readUint64_append (dec : Decoder) (v : Nat) (rest : List Byte) (hv : v < 2 ^ 64)
    (hd : dec.r.data = beBytes 8 v ++ rest) :
    dec.readUint64 = (⟨⟨rest, dec.r.term⟩, wrapInt64 (dec.n + 8)⟩, v, none) := by
  have h := readFull_append dec (beBytes 8 v) rest 8 hd (beBytes_length 8 v)
  have hv' : v % 256 ^ 8 = v := Nat.mod_eq_of_lt (by omega)
  simp only [Decoder.readUint64, h, beValue_beBytes, hv']
  rfl

/-- C14: for every `u < 2^64`, in either mode, `Encode(u)` with a new encoder on an empty
accepting sink writes exactly the 8 big-endian bytes of `u` and returns no error
with `BytesWritten() = 8`; `Decode` into a `*uint64` from those bytes returns no
error, leaves `u` in the target whatever it held, consumes all 8 bytes and has
`BytesRead() = 8`. -/
theorem C14_uint64_round_trip {Fr Fp G1 G2 : Type} (c : Collab Fr Fp G1 G2) (raw : Bool)
    (term : Error) (u old : Nat) (hu : u < 2 ^ 64) :
    encodeThenDecode c raw (.uint64 u) (.uint64 old) term
      = ((⟨beBytes 8 u, 8, raw⟩, none), (⟨⟨[], term⟩, 8⟩, .uint64 u, none)) := by
  have hmod : u % 2 ^ 64 = u := Nat.mod_eq_of_lt hu
  have hw : wrapInt64 (0 + 8) = 8 := by decide
  have e : (NewEncoder ([] : List Byte) (modeOptions raw)).Encode bufferSink c (.uint64 u)
      = (⟨beBytes 8 u, 8, raw⟩, none) := by
    have e' : (NewEncoder ([] : List Byte) (modeOptions raw)).Encode bufferSink c (.uint64 u)
        = (⟨[] ++ beBytes 8 (u % 2 ^ 64), wrapInt64 (0 + 8), raw⟩, none) := by
      cases raw <;> rfl
    rw [e', hmod, hw, List.nil_append]
  have d := readUint64_append (NewDecoder ⟨beBytes 8 u, term⟩) u [] hu (by simp [NewDecoder])
  unfold encodeThenDecode
  rw [e]
  show (_, (Decoder.readUint64 _).1, _, _) = _
  simp only [Decoder.Decode, d]
  simp only [NewDecoder, hw]

/-- C14 at the largest `uint64`, in raw mode, into a target that held `0`. -/
theorem C14_uint64_round_trip_witness :
    encodeThenDecode testCollab true (.uint64 18446744073709551615) (.uint64 0) Error.EOF
      = ((⟨beBytes 8 18446744073709551615, 8, true⟩, none),
          (⟨⟨[], Error.EOF⟩, 8⟩, .uint64 18446744073709551615, none)) :=
  C14_uint64_round_trip testCollab true Error.EOF 18446744073709551615 0 (by decide)

set_option maxRecDepth 100000 in
theorem testCollab_sizes :
    (∀ P ∈ [genPt, infPt],
        (testCollab.g1.Bytes P).length = SizeOfG1AffineCompressed) ∧
      (∀ P ∈ [genPt, infPt],
        (testCollab.g1.RawBytes P).length = SizeOfG1AffineUncompressed) ∧
      (∀ P ∈ [negG2GenPt],
        (testCollab.g2.Bytes P).length = SizeOfG2AffineCompressed) ∧
      (∀ P ∈ [negG2GenPt],
        (testCollab.g2.RawBytes P).length = SizeOfG2AffineUncompressed) := by
  decide

/-- C13 at the slices `[g, O]` of `G1Affine` and `[-g]` of `G2Affine`, with a new
encoder in compressed mode on an empty buffer. -/
theorem C13_point_slice_wire_format_witness :
    (NewEncoder ([] : List Byte) []).Encode bufferSink testCollab (.g1Slice [genPt, infPt])
        = (⟨[] ++ (beBytes 4 2 ++ ([genPt, infPt].map testCollab.g1.Bytes).flatten),
            0 + ((4 + 2 * SizeOfG1AffineCompressed : Nat) : Int), false⟩, none) ∧
      (NewEncoder ([] : List Byte) []).Encode bufferSink testCollab (.g2Slice [negG2GenPt])
        = (⟨[] ++ (beBytes 4 1 ++ ([negG2GenPt].map testCollab.g2.Bytes).flatten),
            0 + ((4 + 1 * SizeOfG2AffineCompressed : Nat) : Int), false⟩, none) :=
  (C13_point_slice_wire_format testCollab (NewEncoder ([] : List Byte) []) [genPt, infPt]
    [negG2GenPt] (by simp) (by simp) (by decide) testCollab_sizes.1 testCollab_sizes.2.1
    testCollab_sizes.2.2.1 testCollab_sizes.2.2.2).1 rfl

/-! ## Decoder counter -/

theorem tracks_refl (dec : Decoder) : Tracks dec dec :=
  ⟨List.suffix_refl _, rfl, Or.inl rfl⟩

theorem tracks_trans {a b c : Decoder} (hab : Tracks a b) (hbc : Tracks b c) : Tracks a c := by
  obtain ⟨s1, t1, n1⟩ := hab
  obtain ⟨s2, t2, n2⟩ := hbc
  refine ⟨s2.trans s1, t2.trans t1, ?_⟩
  have l1 := s1.length_le
  have l2 := s2.length_le
  rcases n1 with rfl | n1
  · exact n2
  · rcases n2 with rfl | n2
    · exact Or.inr n1
    · right
      rw [n2, n1, wrapInt64_wrap_add]
      congr 1
      simp only [consumed]
      omega

theorem tracks_readFull (dec : Decoder) (k : Nat) : Tracks dec (dec.readFull k).1 := by
  unfold Decoder.readFull ReadFull
  by_cases h : k ≤ dec.r.data.length
  · simp only [h, if_true]
    refine ⟨List.drop_suffix _ _, rfl, Or.inr ?_⟩
    simp only [consumed, List.length_take, List.length_drop]
    congr 2
    omega
  · simp only [h, if_false]
    refine ⟨List.nil_suffix, rfl, Or.inr ?_⟩
    simp only [consumed, List.length_nil, Nat.sub_zero]

theorem tracks_readUint64 (dec : Decoder) : Tracks dec dec.readUint64.1 := by
  have h := tracks_readFull dec 8
  cases e : (dec.readFull 8).2.2 <;> simp only [Decoder.readUint64, e] <;> exact h

theorem tracks_readUint32 (dec : Decoder) : Tracks dec dec.readUint32.1 := by
  have h := tracks_readFull dec 4
  cases e : (dec.readFull 4).2.2 <;> simp only [Decoder.readUint32, e] <;> exact h

theorem tracks_decodeAffine {G : Type} (sizeC sizeU : Nat) (ops : PointOps G) (dec : Decoder)
    (t : G) : Tracks dec (dec.decodeAffine sizeC sizeU ops t).1 := by
  have h1 := tracks_readFull dec sizeC
  have h2 := tracks_trans h1 (tracks_readFull (dec.readFull sizeC).1 (sizeU - sizeC))
  cases e1 : (dec.readFull sizeC).2.2 with
  | some e =>
    simp only [Decoder.decodeAffine, e1]
    exact h1
  | none =>
    cases hc : isCompressed ((dec.readFull sizeC).2.1.headD 0) with
    | true =>
      simp only [Decoder.decodeAffine, e1, hc, Bool.not_true, Bool.false_eq_true, if_false]
      exact h1
    | false =>
      cases e2 : ((dec.readFull sizeC).1.readFull (sizeU - sizeC)).2.2 <;>
        simp only [Decoder.decodeAffine, e1, hc, e2, Bool.not_false, if_true] <;> exact h2

theorem tracks_readPoints {G : Type} (sizeC sizeU : Nat) (ops : PointOps G) (ts : List G) :
    ∀ dec : Decoder, Tracks dec (Decoder.readPoints sizeC sizeU ops dec ts).1 := by
  induction ts with
  | nil =>
    intro dec
    exact tracks_refl dec
  | cons t ts ih =>
    intro dec
    have h1 := tracks_readFull dec sizeC
    have h2 := tracks_trans h1 (tracks_readFull (dec.readFull sizeC).1 (sizeU - sizeC))
    cases e1 : (dec.readFull sizeC).2.2 with
    | some e =>
      simp only [Decoder.readPoints, e1]
      exact h1
    | none =>
      cases hc : isCompressed ((dec.readFull sizeC).2.1.headD 0) with
      | true =>
        simp only [Decoder.readPoints, e1, hc, Bool.not_true, Bool.false_eq_true, if_false]
        exact tracks_trans h1 (ih _)
      | false =>
        cases e2 : ((dec.readFull sizeC).1.readFull (sizeU - sizeC)).2.2 with
        | some e =>
          simp only [Decoder.readPoints, e1, hc, e2, Bool.not_false, if_true]
          exact h2
        | none =>
          cases e3 : (ops.SetBytes t ((dec.readFull sizeC).2.1
              ++ ((dec.readFull sizeC).1.readFull (sizeU - sizeC)).2.1)).2 with
          | some e =>
            simp only [Decoder.readPoints, e1, hc, e2, e3, Bool.not_false, if_true]
            exact h2
          | none =>
            simp only [Decoder.readPoints, e1, hc, e2, e3, Bool.not_false, if_true]
            exact tracks_trans h2 (ih _)

theorem tracks_decodeSlice {G : Type} (sizeC sizeU : Nat) (ops : PointOps G) (dec : Decoder)
    (t : List G) : Tracks dec (dec.decodeSlice sizeC sizeU ops t).1 := by
  have h0 := tracks_readUint32 dec
  have h1 := tracks_trans h0 (tracks_readPoints sizeC sizeU ops
    (if t.length ≠ dec.readUint32.2.1 then List.replicate dec.readUint32.2.1 ops.zero else t)
    dec.readUint32.1)
  cases e0 : dec.readUint32.2.2 with
  | some e =>
    simp only [Decoder.decodeSlice, e0]
    exact h0
  | none =>
    cases e1 : (Decoder.readPoints sizeC sizeU ops dec.readUint32.1
        (if t.length ≠ dec.readUint32.2.1
          then List.replicate dec.readUint32.2.1 ops.zero else t)).2.2.2 with
    | some e =>
      simp only [Decoder.decodeSlice, e0, e1]
      exact h1
    | none =>
      simp only [Decoder.decodeSlice, e0, e1]
      generalize (if t.length ≠ dec.readUint32.2.1
        then List.replicate dec.readUint32.2.1 ops.zero else t) = t1 at h1
      split <;> exact h1

theorem tracks_Decode {Fr Fp G1 G2 : Type} (c : Collab Fr Fp G1 G2) (dec : Decoder)
    (v : Target Fr Fp G1 G2) : Tracks dec (dec.Decode c v).1 := by
  cases v with
  | notPointer => exact tracks_refl dec
  | nilPointer => exact tracks_refl dec
  | otherPointer => exact tracks_refl dec
  | uint64 t =>
    have h := tracks_readUint64 dec
    cases e : dec.readUint64.2.2 <;> simp only [Decoder.Decode, e] <;> exact h
  | frElement t =>
    have h := tracks_readFull dec (frLimbs * 8)
    cases e : (dec.readFull (frLimbs * 8)).2.2 <;> simp only [Decoder.Decode, e] <;> exact h
  | fpElement t =>
    have h := tracks_readFull dec (fpLimbs * 8)
    cases e : (dec.readFull (fpLimbs * 8)).2.2 <;> simp only [Decoder.Decode, e] <;> exact h
  | g1Affine t => exact tracks_decodeAffine _ _ c.g1 dec t
  | g2Affine t => exact tracks_decodeAffine _ _ c.g2 dec t
  | g1Slice t => exact tracks_decodeSlice _ _ c.g1 dec t
  | g2Slice t => exact tracks_decodeSlice _ _ c.g2 dec t

/-- C12: for every target and every source, as long as the counter stays in the
`int64` range (`0 ≤ BytesRead()` and fewer than `2^63` bytes in all), one call of
`Decode`, whether or not it returns an error, leaves in the reader a suffix of the
data it held, and `BytesRead()` has increased by exactly the number of bytes
consumed from the source; in particular it has not decreased. -/
theorem C12_decoder_counter_exact {Fr Fp G1 G2 : Type} (c : Collab Fr Fp G1 G2)
    (dec : Decoder) (v : Target Fr Fp G1 G2) (h0 : 0 ≤ dec.n)
    (h1 : dec.n + dec.r.data.length < 2 ^ 63) :
    (dec.Decode c v).1.r.data <:+ dec.r.data ∧
      (dec.Decode c v).1.BytesRead = dec.BytesRead + consumed dec (dec.Decode c v).1 ∧
      dec.BytesRead ≤ (dec.Decode c v).1.BytesRead := by
  obtain ⟨hs, _, hn⟩ := tracks_Decode c dec v
  have hl := hs.length_le
  have hc : consumed dec (dec.Decode c v).1 ≤ dec.r.data.length := Nat.sub_le _ _
  have hex : (dec.Decode c v).1.n = dec.n + consumed dec (dec.Decode c v).1 := by
    rcases hn with h | h
    · rw [h]
      simp [consumed]
    · rw [h]
      apply wrapInt64_of_small <;> omega
  refine ⟨hs, hex, ?_⟩
  show dec.n ≤ (dec.Decode c v).1.n
  rw [hex]
  omega

set_option maxRecDepth 100000 in
theorem truncatedStream_facts :
    (NewDecoder ⟨truncatedStream, Error.EOF⟩).n
        + (NewDecoder ⟨truncatedStream, Error.EOF⟩).r.data.length < 2 ^ 63 ∧
      ((NewDecoder ⟨truncatedStream, Error.EOF⟩).Decode testCollab (.g1Slice [])).2.2
        = some Error.ErrUnexpectedEOF ∧
      consumed (NewDecoder ⟨truncatedStream, Error.EOF⟩)
        ((NewDecoder ⟨truncatedStream, Error.EOF⟩).Decode testCollab (.g1Slice [])).1 = 55 := by
  decide

/-- C12 at a sequence stream that ends in the middle of its second element: `Decode`
returns `io.ErrUnexpectedEOF`, all 55 bytes were consumed and `BytesRead()` went
from `0` to `55`. -/
theorem C12_decoder_counter_exact_witness :
    ((NewDecoder ⟨truncatedStream, Error.EOF⟩).Decode testCollab (.g1Slice [])).2.2
        = some Error.ErrUnexpectedEOF ∧
      consumed (NewDecoder ⟨truncatedStream, Error.EOF⟩)
        ((NewDecoder ⟨truncatedStream, Error.EOF⟩).Decode testCollab (.g1Slice [])).1 = 55 ∧
      ((NewDecoder ⟨truncatedStream, Error.EOF⟩).Decode testCollab (.g1Slice [])).1.BytesRead
        = (NewDecoder ⟨truncatedStream, Error.EOF⟩).BytesRead
          + consumed (NewDecoder ⟨truncatedStream, Error.EOF⟩)
            ((NewDecoder ⟨truncatedStream, Error.EOF⟩).Decode testCollab (.g1Slice [])).1 :=
  ⟨truncatedStream_facts.2.1, truncatedStream_facts.2.2,
    (C12_decoder_counter_exact testCollab (NewDecoder ⟨truncatedStream, Error.EOF⟩)
      (.g1Slice []) (le_refl _) truncatedStream_facts.1).2.1⟩

end Bls381
